import Mathlib

/-!
Verification of the refinebio batch job-dispatch and staleness-reconciliation
core (foreman management commands and the GEO downloader test helper) against
its natural-language specification.

The Python source is shallowly embedded: Django querysets over the entity
store become pure functions over explicit lists, record saves become list
appends or in-place list updates together with an append-only event log, and
the external collaborators (pipeline selector, resource sizing policy,
dispatch queue) become function-valued parameters of an explicit context.
-/

namespace RF

/-! ## Generic list helpers used by the embedding -/

/-- Insert `a` into `l`, keeping `l` ordered by descending `key`. -/
def insertDescBy (key : α → Nat) (a : α) : List α → List α
  | [] => [a]
  | b :: l => if key b < key a then a :: b :: l else b :: insertDescBy key a l

/-- Sort a list by descending `key` (models a SQL `ORDER BY key DESC`). -/
def sortDescBy (key : α → Nat) (l : List α) : List α :=
  l.foldr (insertDescBy key) []

/-- Auxiliary for `dedupKeepFirst`: drop elements already seen. -/
def dedupFirstAux [DecidableEq α] (seen : List α) : List α → List α
  | [] => []
  | a :: l =>
    if a ∈ seen then dedupFirstAux seen l
    else a :: dedupFirstAux (a :: seen) l

/-- Remove duplicates keeping the first occurrence of each element
(models SQL `SELECT DISTINCT` applied to an already ordered row list). -/
def dedupKeepFirst [DecidableEq α] (l : List α) : List α :=
  dedupFirstAux [] l

/-- Structural worker for `chunksOf`; the first `Nat` argument is a fuel
bound that always suffices because each step removes at least one element
when the chunk size is positive. -/
def chunksOfAux (n : Nat) : Nat → List α → List (List α)
  | _, [] => []
  | 0, a :: t => [a :: t]
  | fuel + 1, a :: t => (a :: t).take n :: chunksOfAux n fuel ((a :: t).drop n)

/-- Split a list into consecutive chunks of size `n` (models Django
pagination: `Paginator(queryset, n)`); only used with positive `n`. -/
def chunksOf (n : Nat) (l : List α) : List (List α) :=
  chunksOfAux n l.length l

/-- Check that `p` occurs at the head of `s` (char-level prefix test). -/
def leadMatch : List Char → List Char → Bool
  | [], _ => true
  | _ :: _, [] => false
  | p :: ps, c :: cs => p == c && leadMatch ps cs

/-- Substring containment on char lists; embeds the Python expression
`pat in s` used by the pipeline classification in the GEO test helper. -/
def hasSubstr (pat : List Char) : List Char → Bool
  | [] => leadMatch pat []
  | c :: cs => leadMatch pat (c :: cs) || hasSubstr pat cs

/-! ## Data model

Embeds the entity-store records used by the foreman commands.  The record
classes themselves live in `data_refinery_common.models`, which is not part
of the collected sources; the fields are taken from the spec's data model
(section 3) and from how the commands in `src/` access them. -/

/-- Raw input artifact.  `local_copy` is modelled from the spec: the
"locally cached copy" discarded by `delete_local_file()` (the method body is
in `data_refinery_common`, outside `src/`). -/
structure OriginalFile where
  id : Nat
  filename : String
  has_raw : Bool
  is_downloaded : Bool
  local_copy : Bool
  sample_ids : List Nat
deriving DecidableEq

/-- Biological unit; many-to-many with OriginalFile via `original_file_ids`. -/
structure Sample where
  id : Nat
  original_file_ids : List Nat
deriving DecidableEq

/-- Versioned reference dataset used by the quantification tool. -/
structure OrganismIndex where
  salmon_version : String
  created_at : Nat
deriving DecidableEq

/-- Output of a processing job, associated with the samples it covers. -/
structure ComputationalResult where
  id : Nat
  sample_ids : List Nat
  processor_name : String
  created_at : Nat
  organism_index : OrganismIndex
deriving DecidableEq

/-- Group of samples; the detector iterates `experiment.samples.all()`. -/
structure Experiment where
  sample_ids : List Nat
deriving DecidableEq

/-- Closed set of pipeline classifications (`ProcessorPipeline` enum of
`data_refinery_common.job_lookup`). -/
inductive ProcessorPipeline where
  | NONE
  | AFFY_TO_PCL
  | AGILENT_TWOCOLOR_TO_PCL
  | SALMON
  | TXIMPORT
  | NO_OP
deriving DecidableEq

/-- String value stored on a job record (`pipeline_to_apply.value`). -/
def ProcessorPipeline.value : ProcessorPipeline → String
  | .NONE => "NONE"
  | .AFFY_TO_PCL => "AFFY_TO_PCL"
  | .AGILENT_TWOCOLOR_TO_PCL => "AGILENT_TWOCOLOR_TO_PCL"
  | .SALMON => "SALMON"
  | .TXIMPORT => "TXIMPORT"
  | .NO_OP => "NO_OP"

/-- Processor job record; `id` is assigned by the store on first save. -/
structure ProcessorJob where
  id : Nat
  pipeline_applied : String
  ram_amount : Nat
deriving DecidableEq

/-- Join record between a processor job and an original file
(`ProcessorJobOriginalFileAssociation`). -/
structure PJOFAssociation where
  processor_job : Nat
  original_file : Nat
deriving DecidableEq

/-- Persistence log entry: one entry is appended per `.save()` call, so the
order of saves can be read off a run. -/
inductive Event where
  | jobSaved (id : Nat)
  | assocSaved (job : Nat) (file : Nat)
  | fileSaved (id : Nat)
deriving DecidableEq

/-- The entity store.  `next_job_id` models the id sequence used when a new
`ProcessorJob` row is inserted. -/
structure Store where
  samples : List Sample
  files : List OriginalFile
  results : List ComputationalResult
  jobs : List ProcessorJob
  assocs : List PJOFAssociation
  next_job_id : Nat
  events : List Event
deriving DecidableEq

/-- External collaborators of the Job Factory, passed as functions:
the pipeline selector `determine_processor_pipeline`, the resource sizing
policy `determine_ram_amount` (both from `data_refinery_common.job_lookup`)
and the dispatch queue submission `send_job`
(`data_refinery_common.message_queue`); all three are imported by
`rerun_salmon_old_samples.py` from outside `src/`.  `send_job` returns
`Except.error` to model a raised exception. -/
structure Ctx where
  determine_processor_pipeline : Option Sample → OriginalFile → ProcessorPipeline
  determine_ram_amount : Option Sample → ProcessorJob → Nat
  send_job : ProcessorPipeline → Nat → Except String Unit

/-! ## Store primitives -/

/-- Look up a sample record by id (`Sample.objects` access). -/
def lookupSample (store : Store) (i : Nat) : Option Sample :=
  store.samples.find? (fun s => s.id == i)

/-- Persist an original-file record: replaces the stored row with the same
id (`original_file.save()`). -/
def saveFile (store : Store) (f : OriginalFile) : Store :=
  { store with
    files := store.files.map (fun g => if g.id == f.id then f else g),
    events := store.events ++ [Event.fileSaved f.id] }

/-- Persist a new processor-job record (`processor_job.save()`); the store
assigns the next free id. -/
def saveJob (store : Store) (j : ProcessorJob) : Store :=
  { store with
    jobs := store.jobs ++ [j],
    next_job_id := store.next_job_id + 1,
    events := store.events ++ [Event.jobSaved j.id] }

/-- Persist a job–file association record (`assoc.save()`). -/
def saveAssoc (store : Store) (a : PJOFAssociation) : Store :=
  { store with
    assocs := store.assocs ++ [a],
    events := store.events ++ [Event.assocSaved a.processor_job a.original_file] }

/-! ## Job Factory

`create_processor_job_for_original_files` from
`rerun_salmon_old_samples.py`. -/

/-- Embeds `create_processor_job_for_original_files(original_files)`:
empty input returns immediately; pipeline `NONE` clears the downloaded
state (and deletes the local copy) of every input file; otherwise one job
record is saved, then one association per input file, then dispatch
submission is attempted with any failure swallowed (`try/except: pass`). -/
def create_processor_job_for_original_files
    (ctx : Ctx) (store : Store) (original_files : List OriginalFile) : Store :=
  match original_files with
  | [] => store
  | f0 :: _ =>
    let sample_object := f0.sample_ids.head?.bind (lookupSample store)
    let pipeline_to_apply := ctx.determine_processor_pipeline sample_object f0
    if pipeline_to_apply = ProcessorPipeline.NONE then
      original_files.foldl
        (fun st f => saveFile st { f with local_copy := false, is_downloaded := false })
        store
    else
      let job0 : ProcessorJob :=
        { id := store.next_job_id, pipeline_applied := pipeline_to_apply.value,
          ram_amount := 0 }
      let processor_job : ProcessorJob :=
        { job0 with ram_amount := ctx.determine_ram_amount sample_object job0 }
      let st1 := saveJob store processor_job
      let st2 := original_files.foldl
        (fun st f =>
          saveAssoc st { processor_job := processor_job.id, original_file := f.id })
        st1
      match ctx.send_job pipeline_to_apply processor_job.id with
      | Except.ok _ => st2
      | Except.error _ => st2

/-! ## Staleness Detector

`update_salmon_versions` from `rerun_salmon_old_samples.py`. -/

/-- Name of the quantification processor
(`ProcessorEnum.SALMON_QUANT.value['name']`; the enum lives in
`data_refinery_common.job_lookup`, outside `src/`). -/
def SALMON_QUANT_NAME : String := "Salmon Quantification"

/-- Modelled from the spec: `get_quant_results_for_experiment` is imported
from `data_refinery_common.rna_seq`, which is not in `src/`.  Section 3 and
4.3 of the spec describe it as "the experiment's quantification results":
the quantification-processor results associated with the experiment's
samples. -/
def get_quant_results_for_experiment (store : Store) (exp : Experiment) :
    List ComputationalResult :=
  store.results.filter (fun r =>
    r.processor_name == SALMON_QUANT_NAME
      && r.sample_ids.any (fun i => exp.sample_ids.contains i))

/-- The `salmon_versions` list built by `update_salmon_versions`:
`quant_results.order_by('-organism_index__created_at')
  .values_list('organism_index__salmon_version', flat=True).distinct()`.
Because the ordering column comes from a related model and is therefore
added to the selected columns, the SQL `DISTINCT` applies to the
(version, index-creation-timestamp) pair, not to the version alone. -/
def salmon_versions (store : Store) (exp : Experiment) : List String :=
  (dedupKeepFirst
      ((sortDescBy (fun r => r.organism_index.created_at)
          (get_quant_results_for_experiment store exp)).map
        (fun r => (r.organism_index.salmon_version, r.organism_index.created_at)))).map
    Prod.fst

/-- The correlated subquery annotated onto each sample:
`ComputationalResult.objects.filter(samples=OuterRef('id'),
processor__name=...).order_by('-created_at')` restricted to its first row's
`organism_index__salmon_version`; `none` models SQL NULL (no matching
result). -/
def annotated_salmon_version (store : Store) (s : Sample) : Option String :=
  ((sortDescBy (fun r => r.created_at)
      (store.results.filter (fun r =>
        r.sample_ids.contains s.id && r.processor_name == SALMON_QUANT_NAME))).head?).map
    (fun r => r.organism_index.salmon_version)

/-- The experiment's samples, in store-native order
(`experiment.samples.all()`). -/
def samplesOf (store : Store) (exp : Experiment) : List Sample :=
  store.samples.filter (fun s => exp.sample_ids.contains s.id)

/-- Membership test of the `.exclude(salmon_version=latest)` queryset: SQL
`NOT (salmon_version = latest)` is not satisfied when the annotated value is
NULL, so samples without any quantification result are dropped. -/
def isStale (store : Store) (s : Sample) (latest : String) : Bool :=
  match annotated_salmon_version store s with
  | some v => v != latest
  | none => false

/-- The `samples` queryset of `update_salmon_versions`: the experiment's
samples whose most-recent quantification version exists and differs from
`latest`. -/
def staleSamples (store : Store) (exp : Experiment) (latest : String) : List Sample :=
  (samplesOf store exp).filter (fun s => isStale store s latest)

/-- The original files of one sample, read from the current store state
(`sample.original_files.all()`). -/
def originalFilesOf (store : Store) (s : Sample) : List OriginalFile :=
  store.files.filter (fun f => s.original_file_ids.contains f.id)

/-- One iteration of the detector's job-creation loop
(`create_processor_job_for_original_files(list(sample.original_files.all()))`). -/
def detectorStep (ctx : Ctx) (st : Store) (s : Sample) : Store :=
  create_processor_job_for_original_files ctx st (originalFilesOf st s)

/-- Embeds `update_salmon_versions(experiment)`: build the ordered distinct
version list, stop if it has at most one entry, otherwise create one
processor job per stale sample. -/
def update_salmon_versions (ctx : Ctx) (store : Store) (exp : Experiment) : Store :=
  let sv := salmon_versions store exp
  if sv.length ≤ 1 then store
  else
    let latest_salmon_version := sv.headD ""
    (staleSamples store exp latest_salmon_version).foldl (detectorStep ctx) store

/-- The latest version used by the detector (`salmon_versions[0]`). -/
def latestVersionOf (store : Store) (exp : Experiment) : String :=
  (salmon_versions store exp).headD ""

/-! ## Claim-side definitions

Definitions written from the claim's words, to be compared with the
source-side definitions above. -/

/-- Claim-side version list for C2: the distinct tool versions of the
experiment's quantification results, ordered by descending creation
timestamp of the result, then deduplicated. -/
def claimed_versions (store : Store) (exp : Experiment) : List String :=
  dedupKeepFirst
    ((sortDescBy (fun r => r.created_at)
        (get_quant_results_for_experiment store exp)).map
      (fun r => r.organism_index.salmon_version))

/-- Uppercased characters of a string; embeds Python's `s.upper()` ASCII
behaviour character by character. -/
def upperChars (s : String) : List Char :=
  s.toList.map Char.toUpper

/-- Modelled from the spec: `determine_processor_pipeline`
(`data_refinery_common.job_lookup`) is not in `src/`.  Section 4.1: a file
lacking the raw-data capability flag maps to NONE; otherwise a
case-insensitive match of "CEL" in the filename maps to AFFY_TO_PCL, else
AGILENT_TWOCOLOR_TO_PCL. -/
def determine_processor_pipeline_spec (_s : Option Sample) (f : OriginalFile) :
    ProcessorPipeline :=
  if !f.has_raw then ProcessorPipeline.NONE
  else if hasSubstr ("CEL".toList) (upperChars f.filename) then
    ProcessorPipeline.AFFY_TO_PCL
  else ProcessorPipeline.AGILENT_TWOCOLOR_TO_PCL

/-- The pipeline the factory will select for a sample's files, computed
against a given store state (first file's first sample, then the
selector). -/
def pipelineOf (ctx : Ctx) (store : Store) (s : Sample) : ProcessorPipeline :=
  match originalFilesOf store s with
  | [] => ProcessorPipeline.NONE
  | f0 :: _ =>
    ctx.determine_processor_pipeline (f0.sample_ids.head?.bind (lookupSample store)) f0

/-- File ids attached to a job record in a store state. -/
def jobFileIds (st : Store) (j : ProcessorJob) : List Nat :=
  (st.assocs.filter (fun a => a.processor_job == j.id)).map (fun a => a.original_file)

/-- Ids of a sample's original files in a store state. -/
def fileIdsOf (store : Store) (s : Sample) : List Nat :=
  (originalFilesOf store s).map (fun f => f.id)

/-- The immutable attributes of an original-file record: everything except
the downloaded flag and the local copy, which are the only fields the Job
Factory ever mutates (in its NONE branch). -/
def fileCore (f : OriginalFile) : Nat × String × Bool × List Nat :=
  (f.id, f.filename, f.has_raw, f.sample_ids)

/-- A sample the Job Factory can actually serve: it has at least one
original file and the selector finds a pipeline other than NONE for it. -/
def isProcessable (ctx : Ctx) (store : Store) (s : Sample) : Bool :=
  decide (originalFilesOf store s ≠ [])
    && decide (pipelineOf ctx store s ≠ ProcessorPipeline.NONE)

/-! ## Pipeline classification of the GEO test helper

`create_processor_jobs_for_original_files_no_send` in
`src/workers/data_refinery_workers/downloaders/test_geo.py` classifies each
original file when no pipeline is passed in; this is the classification
logic the spec calls the Pipeline Selector. -/

/-- Embeds the per-file classification of the test helper:
`"NO_OP"` when `not original_file.has_raw`, `"AFFY_TO_PCL"` when
`'CEL' in original_file.filename.upper()`, else
`"AGILENT_TWOCOLOR_TO_PCL"`. -/
def classify_original_file (f : OriginalFile) : String :=
  if !f.has_raw then "NO_OP"
  else if hasSubstr ("CEL".toList) (upperChars f.filename) then "AFFY_TO_PCL"
  else "AGILENT_TWOCOLOR_TO_PCL"

/-! ## Retry Driver

`Command.handle` from `retry_samples.py`.  The module as committed does not
even parse (line 50 ends in a dangling attribute access) and references
`Paginator` without importing it; the embedding below follows the
executable reading of the remaining statements as literally as possible. -/

/-- Page size of the retry sweep (`PAGE_SIZE=2000`). -/
def PAGE_SIZE : Nat := 2000

/-- Sample record as used by `retry_samples.py`. -/
structure RSample where
  id : Nat
  source_database : String
  computed_file_ids : List Nat
  original_file_ids : List Nat
deriving DecidableEq

/-- Downloader job produced by `create_downloader_job(files, force=True)`. -/
structure RDownloaderJob where
  sample_id : Nat
  original_file_ids : List Nat
  force : Bool
deriving DecidableEq

/-- Store slice visible to the retry command. -/
structure RStore where
  samples : List RSample
deriving DecidableEq

instance {ε α : Type} [DecidableEq ε] [DecidableEq α] : DecidableEq (Except ε α) :=
  fun a b =>
    match a, b with
    | Except.ok x, Except.ok y =>
      if h : x = y then isTrue (by rw [h]) else isFalse (by simp [h])
    | Except.error x, Except.error y =>
      if h : x = y then isTrue (by rw [h]) else isFalse (by simp [h])
    | Except.ok _, Except.error _ => isFalse (by simp)
    | Except.error _, Except.ok _ => isFalse (by simp)

/-- The queryset the code actually builds (`sra_samples`): it filters on
the literal string "SRA" and ignores the `--source-database` argument; the
dead `unprocessed_samples` line never constrains it to samples with zero
computed files. -/
def sra_samples (store : RStore) (source_database : String) : List RSample :=
  store.samples.filter (fun s => s.source_database == "SRA")

/-- Jobs created while scanning one page: only samples with zero computed
files get a forced downloader job. -/
def page_jobs (page : List RSample) : List RDownloaderJob :=
  (page.filter (fun s => s.computed_file_ids.length == 0)).map
    (fun s =>
      { sample_id := s.id, original_file_ids := s.original_file_ids, force := true })

/-- The `while page.has_next():` loop.  `page1` is the first page, which is
never reassigned inside the loop body, so `has_next` never changes; `fuel`
bounds the number of iterations we unfold, and `none` means the loop was
still running when the fuel ran out. -/
def retry_while (page1 : List RSample) (hasNext : Bool) :
    Nat → Option (List RDownloaderJob)
  | 0 => if hasNext then none else some []
  | fuel + 1 =>
    if hasNext then
      (retry_while page1 hasNext fuel).map (fun rest => page_jobs page1 ++ rest)
    else some []

/-- Embeds `Command.handle` of `retry_samples.py`: missing
`--source-database` exits with status 1; otherwise the SRA queryset is
paginated and the while loop runs on the first page.  The result is the
list of downloader jobs created, `Except.error 1` for the CLI exit, and
`none` when the loop is still running after `fuel` iterations. -/
def retry_handle (fuel : Nat) (store : RStore) (source_database : Option String) :
    Option (Except Nat (List RDownloaderJob)) :=
  match source_database with
  | none => some (Except.error 1)
  | some d =>
    let pages := chunksOf PAGE_SIZE (sra_samples store d)
    let page1 := pages.headD []
    let hasNext := decide (1 < pages.length)
    (retry_while page1 hasNext fuel).map Except.ok

/-! ## Concrete fixtures

Small concrete stores, experiments and contexts used to instantiate the
claim theorems and to exhibit counterexamples. -/

/-- Context plugging in the spec-modelled pipeline selector, a constant
resource sizing policy, and an always-accepting dispatch queue. -/
def specCtx : Ctx :=
  { determine_processor_pipeline := determine_processor_pipeline_spec,
    determine_ram_amount := fun _ _ => 1024,
    send_job := fun _ _ => Except.ok () }

/-- Same context but with a dispatch queue whose submission always fails. -/
def failCtx : Ctx :=
  { determine_processor_pipeline := determine_processor_pipeline_spec,
    determine_ram_amount := fun _ _ => 1024,
    send_job := fun _ _ => Except.error "queue down" }

def fix_idx_new : OrganismIndex := { salmon_version := "1.0.0", created_at := 2 }

def fix_idx_old : OrganismIndex := { salmon_version := "0.9.0", created_at := 1 }

def fix_s1 : Sample := { id := 1, original_file_ids := [11] }

def fix_s2 : Sample := { id := 2, original_file_ids := [12] }

def fix_s3 : Sample := { id := 3, original_file_ids := [13] }

def fix_s4 : Sample := { id := 4, original_file_ids := [14] }

def fix_f11 : OriginalFile :=
  { id := 11, filename := "a.CEL", has_raw := true, is_downloaded := true,
    local_copy := true, sample_ids := [1] }

def fix_f12 : OriginalFile :=
  { id := 12, filename := "b.CEL", has_raw := true, is_downloaded := true,
    local_copy := true, sample_ids := [2] }

def fix_f14 : OriginalFile :=
  { id := 14, filename := "d.txt", has_raw := false, is_downloaded := true,
    local_copy := true, sample_ids := [4] }

def fix_r1 : ComputationalResult :=
  { id := 101, sample_ids := [1], processor_name := SALMON_QUANT_NAME,
    created_at := 5, organism_index := fix_idx_old }

def fix_r2 : ComputationalResult :=
  { id := 102, sample_ids := [2], processor_name := SALMON_QUANT_NAME,
    created_at := 10, organism_index := fix_idx_new }

def fix_r4 : ComputationalResult :=
  { id := 104, sample_ids := [4], processor_name := SALMON_QUANT_NAME,
    created_at := 6, organism_index := fix_idx_old }

def fix_e12 : Experiment := { sample_ids := [1, 2] }

def fix_e123 : Experiment := { sample_ids := [1, 2, 3] }

def fix_e124 : Experiment := { sample_ids := [1, 2, 4] }

/-- Store for the C1 witness: sample 1 is stale (version 0.9.0), sample 2
is at the latest version (1.0.0); sample 1 has one raw CEL file. -/
def w1 : Store :=
  { samples := [fix_s1, fix_s2], files := [fix_f11, fix_f12],
    results := [fix_r1, fix_r2], jobs := [], assocs := [],
    next_job_id := 0, events := [] }

/-- Mixed store for the C1 witness: samples 1 and 4 are both stale
(version 0.9.0 while the latest is 1.0.0), but only sample 1 is
processable — it has a raw CEL file — while sample 4 has only a non-raw
file, which selects pipeline NONE; sample 2 is at the latest version. -/
def wmix : Store :=
  { samples := [fix_s1, fix_s2, fix_s4],
    files := [fix_f11, fix_f12, fix_f14],
    results := [fix_r1, fix_r2, fix_r4], jobs := [], assocs := [],
    next_job_id := 0, events := [] }

/-- Store for the C1 counterexample: samples 1 and 4 are stale, but sample
1 has no original files at all and sample 4 has only a non-raw file, so
neither can receive a processor job. -/
def cx1 : Store :=
  { samples := [{ id := 1, original_file_ids := [] }, fix_s2, fix_s4],
    files := [fix_f12, fix_f14],
    results := [fix_r1, fix_r2, fix_r4], jobs := [], assocs := [],
    next_job_id := 0, events := [] }

/-- Store for the C10 witness: like `w1` plus sample 3, which has no
quantification result at all. -/
def w10 : Store :=
  { samples := [fix_s1, fix_s2, fix_s3], files := [fix_f11, fix_f12],
    results := [fix_r1, fix_r2], jobs := [], assocs := [],
    next_job_id := 0, events := [] }

/-- Store for the C9 witness: a single salmon version across the
experiment's results. -/
def w9 : Store :=
  { samples := [fix_s1, fix_s2], files := [fix_f11, fix_f12],
    results := [fix_r2], jobs := [], assocs := [],
    next_job_id := 0, events := [] }

/-- Results for the C2 counterexample: ordering by result creation
timestamp and ordering by organism-index creation timestamp disagree, and
version "A" appears under two distinct index timestamps. -/
def cx2_ra : ComputationalResult :=
  { id := 201, sample_ids := [1], processor_name := SALMON_QUANT_NAME,
    created_at := 10,
    organism_index := { salmon_version := "A", created_at := 1 } }

def cx2_rb : ComputationalResult :=
  { id := 202, sample_ids := [1], processor_name := SALMON_QUANT_NAME,
    created_at := 5,
    organism_index := { salmon_version := "B", created_at := 3 } }

def cx2_rc : ComputationalResult :=
  { id := 203, sample_ids := [1], processor_name := SALMON_QUANT_NAME,
    created_at := 1,
    organism_index := { salmon_version := "A", created_at := 2 } }

def cx2 : Store :=
  { samples := [fix_s1], files := [fix_f11],
    results := [cx2_ra, cx2_rb, cx2_rc], jobs := [], assocs := [],
    next_job_id := 0, events := [] }

def cx2_e : Experiment := { sample_ids := [1] }

/-- Fixtures for the Job Factory claims (C4, C5, C6). -/
def c4file : OriginalFile :=
  { id := 5, filename := "x.fastq", has_raw := true, is_downloaded := true,
    local_copy := true, sample_ids := [1] }

def c4fileB : OriginalFile :=
  { id := 6, filename := "y.fastq", has_raw := true, is_downloaded := true,
    local_copy := true, sample_ids := [1] }

def c4store : Store :=
  { samples := [{ id := 1, original_file_ids := [5, 6] }],
    files := [c4file, c4fileB], results := [], jobs := [], assocs := [],
    next_job_id := 0, events := [] }

/-- Context whose selector always chooses the SALMON pipeline. -/
def salmonCtx : Ctx :=
  { determine_processor_pipeline := fun _ _ => ProcessorPipeline.SALMON,
    determine_ram_amount := fun _ _ => 256,
    send_job := fun _ _ => Except.ok () }

/-- Context like `salmonCtx` but whose dispatch submission always fails. -/
def salmonFailCtx : Ctx :=
  { determine_processor_pipeline := fun _ _ => ProcessorPipeline.SALMON,
    determine_ram_amount := fun _ _ => 256,
    send_job := fun _ _ => Except.error "queue down" }

/-- Context whose selector never finds an applicable pipeline. -/
def noneCtx : Ctx :=
  { determine_processor_pipeline := fun _ _ => ProcessorPipeline.NONE,
    determine_ram_amount := fun _ _ => 256,
    send_job := fun _ _ => Except.ok () }

/-- Non-raw file for the C8 counterexample. -/
def c8file : OriginalFile :=
  { id := 31, filename := "probes.CEL", has_raw := false, is_downloaded := true,
    local_copy := true, sample_ids := [1] }

/-- Retry-driver fixtures: a GEO sample with zero computed files and an SRA
sample that already has a computed file. -/
def rtGeo : RSample :=
  { id := 41, source_database := "GEO", computed_file_ids := [],
    original_file_ids := [61] }

def rtSra : RSample :=
  { id := 42, source_database := "SRA", computed_file_ids := [7],
    original_file_ids := [62] }

def rtStore : RStore := { samples := [rtGeo, rtSra] }

/-- Retry-driver fixture for C7: exactly one SRA sample lacking computed
files, so the scan has exactly one page. -/
def rtSra2 : RSample :=
  { id := 43, source_database := "SRA", computed_file_ids := [],
    original_file_ids := [63] }

def rtStore7 : RStore := { samples := [rtSra2] }

/-! ## Helper lemmas about the list combinators -/

theorem mem_insertDescBy (key : α → Nat) (a x : α) :
    ∀ l : List α, x ∈ insertDescBy key a l ↔ x = a ∨ x ∈ l := by
  intro l
  induction l with
  | nil => simp [insertDescBy]
  | cons b t ih =>
    simp only [insertDescBy]
    by_cases h : key b < key a
    · simp [h]
    · simp only [if_neg h, List.mem_cons, ih]
      tauto

theorem mem_sortDescBy (key : α → Nat) (x : α) :
    ∀ l : List α, x ∈ sortDescBy key l ↔ x ∈ l := by
  intro l
  induction l with
  | nil => simp [sortDescBy]
  | cons b t ih =>
    show x ∈ insertDescBy key b (sortDescBy key t) ↔ x ∈ b :: t
    rw [mem_insertDescBy]
    simp [ih]

theorem mem_dedupFirstAux [DecidableEq α] (x : α) :
    ∀ (l : List α) (seen : List α),
      x ∈ dedupFirstAux seen l ↔ x ∈ l ∧ x ∉ seen := by
  intro l
  induction l with
  | nil => simp [dedupFirstAux]
  | cons a t ih =>
    intro seen
    by_cases h : a ∈ seen
    · simp only [dedupFirstAux, if_pos h, ih]
      constructor
      · rintro ⟨hx, hns⟩
        exact ⟨List.mem_cons.mpr (Or.inr hx), hns⟩
      · rintro ⟨hx, hns⟩
        rcases List.mem_cons.mp hx with rfl | hx2
        · exact absurd h hns
        · exact ⟨hx2, hns⟩
    · simp only [dedupFirstAux, if_neg h]
      constructor
      · intro hx
        rcases List.mem_cons.mp hx with rfl | hx2
        · exact ⟨List.mem_cons_self _ _, h⟩
        · rcases (ih (a :: seen)).mp hx2 with ⟨ht, hns⟩
          exact ⟨List.mem_cons.mpr (Or.inr ht),
            fun hc => hns (List.mem_cons.mpr (Or.inr hc))⟩
      · rintro ⟨hx, hns⟩
        rcases List.mem_cons.mp hx with rfl | hx2
        · exact List.mem_cons_self _ _
        · by_cases hxa : x = a
          · subst hxa
            exact List.mem_cons_self _ _
          · refine List.mem_cons.mpr (Or.inr ((ih (a :: seen)).mpr ⟨hx2, ?_⟩))
            intro hc
            rcases List.mem_cons.mp hc with h1 | h2
            · exact hxa h1
            · exact hns h2

theorem mem_dedupKeepFirst [DecidableEq α] (x : α) (l : List α) :
    x ∈ dedupKeepFirst l ↔ x ∈ l := by
  simp [dedupKeepFirst, mem_dedupFirstAux]

theorem leadMatch_iff (pat : List Char) :
    ∀ s : List Char, leadMatch pat s = true ↔ ∃ r, s = pat ++ r := by
  induction pat with
  | nil =>
    intro s
    simp [leadMatch]
  | cons p ps ih =>
    intro s
    cases s with
    | nil =>
      simp [leadMatch]
    | cons c cs =>
      simp only [leadMatch, Bool.and_eq_true, beq_iff_eq, ih]
      constructor
      · rintro ⟨rfl, r, rfl⟩
        exact ⟨r, rfl⟩
      · rintro ⟨r, hr⟩
        rw [List.cons_append] at hr
        injection hr with h1 h2
        exact ⟨h1.symm, r, h2⟩

theorem hasSubstr_iff (pat : List Char) :
    ∀ s : List Char, hasSubstr pat s = true ↔ ∃ l r, s = l ++ pat ++ r := by
  intro s
  induction s with
  | nil =>
    simp only [hasSubstr, leadMatch_iff]
    constructor
    · rintro ⟨r, hr⟩
      exact ⟨[], r, by simpa using hr⟩
    · rintro ⟨l, r, hr⟩
      have h0 : l ++ pat ++ r = [] := hr.symm
      have h1 : l = [] ∧ pat = [] ∧ r = [] := by
        simpa [List.append_eq_nil] using h0
      rcases h1 with ⟨rfl, hp, rfl⟩
      exact ⟨[], by simp [hp]⟩
  | cons c cs ih =>
    simp only [hasSubstr, Bool.or_eq_true, leadMatch_iff, ih]
    constructor
    · rintro (⟨r, hr⟩ | ⟨l, r, hr⟩)
      · exact ⟨[], r, by simpa using hr⟩
      · exact ⟨c :: l, r, by simp [hr]⟩
    · rintro ⟨l, r, hr⟩
      cases l with
      | nil =>
        exact Or.inl ⟨r, by simpa using hr⟩
      | cons x xs =>
        rw [List.cons_append, List.cons_append] at hr
        injection hr with h1 h2
        exact Or.inr ⟨xs, r, by simpa using h2⟩

/-! ## Lemmas about the store primitives -/

theorem map_id_update (f : OriginalFile) :
    ∀ l : List OriginalFile,
      (l.map (fun g => if g.id == f.id then f else g)).map (fun x => x.id)
        = l.map (fun x => x.id) := by
  intro l
  induction l with
  | nil => simp
  | cons g t ih =>
    simp only [List.map_cons, ih, List.cons.injEq]
    refine ⟨?_, trivial⟩
    by_cases h : (g.id == f.id) = true
    · rw [if_pos h]
      have hid : g.id = f.id := by simpa using h
      exact hid.symm
    · rw [if_neg h]

theorem saveFile_files_ids (st : Store) (f : OriginalFile) :
    (saveFile st f).files.map (fun x => x.id) = st.files.map (fun x => x.id) := by
  simp only [saveFile]
  exact map_id_update f st.files

theorem foldl_clearFile_spec :
    ∀ (fs : List OriginalFile) (st : Store),
      let res := fs.foldl
        (fun st2 f => saveFile st2 { f with local_copy := false, is_downloaded := false }) st
      res.jobs = st.jobs ∧ res.assocs = st.assocs
        ∧ res.next_job_id = st.next_job_id ∧ res.samples = st.samples
        ∧ res.results = st.results
        ∧ res.files.map (fun x => x.id) = st.files.map (fun x => x.id) := by
  intro fs
  induction fs with
  | nil => intro st; exact ⟨rfl, rfl, rfl, rfl, rfl, rfl⟩
  | cons f t ih =>
    intro st
    have h := ih (saveFile st { f with local_copy := false, is_downloaded := false })
    simp only [List.foldl_cons]
    refine ⟨h.1, h.2.1, h.2.2.1, h.2.2.2.1, h.2.2.2.2.1, ?_⟩
    rw [h.2.2.2.2.2, saveFile_files_ids]

theorem foldl_saveAssoc_eq (jid : Nat) :
    ∀ (fs : List OriginalFile) (st : Store),
      fs.foldl
          (fun st2 f => saveAssoc st2 { processor_job := jid, original_file := f.id }) st
        = { st with
            assocs := st.assocs
              ++ fs.map (fun f => { processor_job := jid, original_file := f.id }),
            events := st.events ++ fs.map (fun f => Event.assocSaved jid f.id) } := by
  intro fs
  induction fs with
  | nil =>
    intro st
    rw [List.foldl_nil]
    cases st
    simp
  | cons f t ih =>
    intro st
    rw [List.foldl_cons, ih]
    cases st
    simp [saveAssoc, List.append_assoc]

/-! ## Case analysis of the Job Factory -/

theorem create_eq_cases (ctx : Ctx) (st : Store) (fs : List OriginalFile) :
    (create_processor_job_for_original_files ctx st fs = st ∧ fs = [])
    ∨ (∃ f0 t, fs = f0 :: t
        ∧ ctx.determine_processor_pipeline (f0.sample_ids.head?.bind (lookupSample st)) f0
            = ProcessorPipeline.NONE
        ∧ create_processor_job_for_original_files ctx st fs
            = fs.foldl
                (fun st2 f =>
                  saveFile st2 { f with local_copy := false, is_downloaded := false }) st)
    ∨ (∃ f0 t r, fs = f0 :: t
        ∧ ctx.determine_processor_pipeline (f0.sample_ids.head?.bind (lookupSample st)) f0
            ≠ ProcessorPipeline.NONE
        ∧ r = ctx.determine_ram_amount (f0.sample_ids.head?.bind (lookupSample st))
            { id := st.next_job_id,
              pipeline_applied :=
                (ctx.determine_processor_pipeline
                  (f0.sample_ids.head?.bind (lookupSample st)) f0).value,
              ram_amount := 0 }
        ∧ create_processor_job_for_original_files ctx st fs
            = { st with
                jobs := st.jobs ++
                  [{ id := st.next_job_id,
                     pipeline_applied :=
                       (ctx.determine_processor_pipeline
                         (f0.sample_ids.head?.bind (lookupSample st)) f0).value,
                     ram_amount := r }],
                assocs := st.assocs
                  ++ fs.map (fun f =>
                      { processor_job := st.next_job_id, original_file := f.id }),
                next_job_id := st.next_job_id + 1,
                events := st.events
                  ++ Event.jobSaved st.next_job_id
                    :: fs.map (fun f => Event.assocSaved st.next_job_id f.id) }) := by
  cases fs with
  | nil => exact Or.inl ⟨rfl, rfl⟩
  | cons f0 t =>
    by_cases hp :
        ctx.determine_processor_pipeline (f0.sample_ids.head?.bind (lookupSample st)) f0
          = ProcessorPipeline.NONE
    · refine Or.inr (Or.inl ⟨f0, t, rfl, hp, ?_⟩)
      simp only [create_processor_job_for_original_files]
      rw [if_pos hp]
    · refine Or.inr (Or.inr ⟨f0, t,
        ctx.determine_ram_amount (f0.sample_ids.head?.bind (lookupSample st))
          { id := st.next_job_id,
            pipeline_applied :=
              (ctx.determine_processor_pipeline
                (f0.sample_ids.head?.bind (lookupSample st)) f0).value,
            ram_amount := 0 },
        rfl, hp, rfl, ?_⟩)
      simp only [create_processor_job_for_original_files]
      rw [if_neg hp]
      simp only [foldl_saveAssoc_eq]
      cases hsend :
          ctx.send_job
            (ctx.determine_processor_pipeline
              (f0.sample_ids.head?.bind (lookupSample st)) f0)
            st.next_job_id with
      | ok u => cases st; simp [saveJob]
      | error e => cases st; simp [saveJob]

theorem create_samples (ctx : Ctx) (st : Store) (fs : List OriginalFile) :
    (create_processor_job_for_original_files ctx st fs).samples = st.samples := by
  rcases create_eq_cases ctx st fs with ⟨heq, -⟩ | ⟨f0, t, -, -, heq⟩ | ⟨f0, t, r, -, -, -, heq⟩
  · rw [heq]
  · rw [heq]
    exact (foldl_clearFile_spec fs st).2.2.2.1
  · rw [heq]

theorem create_results (ctx : Ctx) (st : Store) (fs : List OriginalFile) :
    (create_processor_job_for_original_files ctx st fs).results = st.results := by
  rcases create_eq_cases ctx st fs with ⟨heq, -⟩ | ⟨f0, t, -, -, heq⟩ | ⟨f0, t, r, -, -, -, heq⟩
  · rw [heq]
  · rw [heq]
    exact (foldl_clearFile_spec fs st).2.2.2.2.1
  · rw [heq]

theorem create_files_ids (ctx : Ctx) (st : Store) (fs : List OriginalFile) :
    (create_processor_job_for_original_files ctx st fs).files.map (fun x => x.id)
      = st.files.map (fun x => x.id) := by
  rcases create_eq_cases ctx st fs with ⟨heq, -⟩ | ⟨f0, t, -, -, heq⟩ | ⟨f0, t, r, -, -, -, heq⟩
  · rw [heq]
  · rw [heq]
    exact (foldl_clearFile_spec fs st).2.2.2.2.2
  · rw [heq]

theorem create_next_ge (ctx : Ctx) (st : Store) (fs : List OriginalFile) :
    st.next_job_id ≤ (create_processor_job_for_original_files ctx st fs).next_job_id := by
  rcases create_eq_cases ctx st fs with ⟨heq, -⟩ | ⟨f0, t, -, -, heq⟩ | ⟨f0, t, r, -, -, -, heq⟩
  · rw [heq]
  · rw [heq, (foldl_clearFile_spec fs st).2.2.1]
  · rw [heq]
    exact Nat.le_succ _

theorem create_assocs_append (ctx : Ctx) (st : Store) (fs : List OriginalFile) :
    ∃ A, (create_processor_job_for_original_files ctx st fs).assocs = st.assocs ++ A
      ∧ ∀ a ∈ A, a.processor_job = st.next_job_id := by
  rcases create_eq_cases ctx st fs with ⟨heq, -⟩ | ⟨f0, t, -, -, heq⟩ | ⟨f0, t, r, -, -, -, heq⟩
  · exact ⟨[], by rw [heq]; simp, by simp⟩
  · exact ⟨[], by rw [heq, (foldl_clearFile_spec fs st).2.1]; simp, by simp⟩
  · refine ⟨fs.map (fun f => { processor_job := st.next_job_id, original_file := f.id }),
      by rw [heq], ?_⟩
    intro a ha
    rcases List.mem_map.mp ha with ⟨f, -, rfl⟩
    rfl

theorem create_jobs_append (ctx : Ctx) (st : Store) (fs : List OriginalFile) :
    ∃ Jn, (create_processor_job_for_original_files ctx st fs).jobs = st.jobs ++ Jn
      ∧ ∀ j ∈ Jn, j.id = st.next_job_id := by
  rcases create_eq_cases ctx st fs with ⟨heq, -⟩ | ⟨f0, t, -, -, heq⟩ | ⟨f0, t, r, -, -, -, heq⟩
  · exact ⟨[], by rw [heq]; simp, by simp⟩
  · exact ⟨[], by rw [heq, (foldl_clearFile_spec fs st).1]; simp, by simp⟩
  · rw [heq]
    refine ⟨_, rfl, ?_⟩
    intro j hj
    rcases List.mem_singleton.mp hj with rfl
    rfl

/-! ## Lemmas about the detector's job-creation loop -/

theorem foldl_step_samples (ctx : Ctx) :
    ∀ (l : List Sample) (st : Store),
      (l.foldl (detectorStep ctx) st).samples = st.samples := by
  intro l
  induction l with
  | nil => intro st; rfl
  | cons s rl ih =>
    intro st
    rw [List.foldl_cons, ih]
    exact create_samples ctx st (originalFilesOf st s)

theorem foldl_step_files_ids (ctx : Ctx) :
    ∀ (l : List Sample) (st : Store),
      (l.foldl (detectorStep ctx) st).files.map (fun x => x.id)
        = st.files.map (fun x => x.id) := by
  intro l
  induction l with
  | nil => intro st; rfl
  | cons s rl ih =>
    intro st
    rw [List.foldl_cons, ih]
    exact create_files_ids ctx st (originalFilesOf st s)

theorem foldl_step_next_ge (ctx : Ctx) :
    ∀ (l : List Sample) (st : Store),
      st.next_job_id ≤ (l.foldl (detectorStep ctx) st).next_job_id := by
  intro l
  induction l with
  | nil => intro st; exact Nat.le_refl _
  | cons s rl ih =>
    intro st
    rw [List.foldl_cons]
    exact Nat.le_trans (create_next_ge ctx st (originalFilesOf st s))
      (ih (detectorStep ctx st s))

theorem foldl_step_assocs_ge (ctx : Ctx) :
    ∀ (l : List Sample) (st : Store),
      ∃ A, (l.foldl (detectorStep ctx) st).assocs = st.assocs ++ A
        ∧ ∀ a ∈ A, st.next_job_id ≤ a.processor_job := by
  intro l
  induction l with
  | nil => intro st; exact ⟨[], by simp, by simp⟩
  | cons s rl ih =>
    intro st
    rw [List.foldl_cons]
    rcases ih (detectorStep ctx st s) with ⟨A2, h2, hge2⟩
    rcases create_assocs_append ctx st (originalFilesOf st s) with ⟨A1, h1, heq1⟩
    refine ⟨A1 ++ A2, ?_, ?_⟩
    · rw [h2]
      show (create_processor_job_for_original_files ctx st (originalFilesOf st s)).assocs
          ++ A2 = st.assocs ++ (A1 ++ A2)
      rw [h1, List.append_assoc]
    · intro a ha
      rcases List.mem_append.mp ha with ha1 | ha2
      · exact Nat.le_of_eq (heq1 a ha1).symm
      · exact Nat.le_trans (create_next_ge ctx st (originalFilesOf st s)) (hge2 a ha2)

/-! ## Congruence helpers between store states -/

theorem map_id_filter (c : List Nat) :
    ∀ l : List OriginalFile,
      (l.filter (fun f => c.contains f.id)).map (fun x => x.id)
        = (l.map (fun x => x.id)).filter (fun i => c.contains i) := by
  intro l
  induction l with
  | nil => rfl
  | cons g t ih =>
    by_cases hm : g.id ∈ c
    · simp [List.filter_cons, hm]
      simpa using ih
    · simp [List.filter_cons, hm]
      simpa using ih

theorem fileIdsOf_congr (st store : Store) (s : Sample)
    (h : st.files.map (fun x => x.id) = store.files.map (fun x => x.id)) :
    fileIdsOf st s = fileIdsOf store s := by
  rw [fileIdsOf, fileIdsOf, originalFilesOf, originalFilesOf,
    map_id_filter, map_id_filter, h]

theorem lookupSample_congr (st store : Store) (i : Nat)
    (h : st.samples = store.samples) : lookupSample st i = lookupSample store i := by
  rw [lookupSample, lookupSample, h]

theorem originalFilesOf_congr (st store : Store) (s : Sample)
    (h : st.files = store.files) : originalFilesOf st s = originalFilesOf store s := by
  rw [originalFilesOf, originalFilesOf, h]

theorem create_else_eq (ctx : Ctx) (st : Store) (f0 : OriginalFile) (t : List OriginalFile)
    (hp : ctx.determine_processor_pipeline (f0.sample_ids.head?.bind (lookupSample st)) f0
        ≠ ProcessorPipeline.NONE) :
    ∃ r, r = ctx.determine_ram_amount (f0.sample_ids.head?.bind (lookupSample st))
          { id := st.next_job_id,
            pipeline_applied :=
              (ctx.determine_processor_pipeline
                (f0.sample_ids.head?.bind (lookupSample st)) f0).value,
            ram_amount := 0 }
      ∧ create_processor_job_for_original_files ctx st (f0 :: t)
        = { st with
            jobs := st.jobs ++
              [{ id := st.next_job_id,
                 pipeline_applied :=
                   (ctx.determine_processor_pipeline
                     (f0.sample_ids.head?.bind (lookupSample st)) f0).value,
                 ram_amount := r }],
            assocs := st.assocs
              ++ (f0 :: t).map (fun f =>
                  { processor_job := st.next_job_id, original_file := f.id }),
            next_job_id := st.next_job_id + 1,
            events := st.events
              ++ Event.jobSaved st.next_job_id
                :: (f0 :: t).map (fun f => Event.assocSaved st.next_job_id f.id) } := by
  rcases create_eq_cases ctx st (f0 :: t) with
    ⟨-, heq⟩ | ⟨f1, t1, heq, hnone, -⟩ | ⟨f1, t1, r, heq, -, hpin, hcr⟩
  · exact absurd heq (List.cons_ne_nil f0 t)
  · injection heq with h1 h2
    subst h1
    exact absurd hnone hp
  · injection heq with h1 h2
    subst h1
    subst h2
    exact ⟨r, hpin, hcr⟩

theorem filter_beq_nil (n : Nat) :
    ∀ l : List PJOFAssociation, (∀ a ∈ l, a.processor_job ≠ n) →
      l.filter (fun a => a.processor_job == n) = [] := by
  intro l
  induction l with
  | nil => intro _; rfl
  | cons a t ih =>
    intro h
    have ha : a.processor_job ≠ n := h a (List.mem_cons_self a t)
    have hb : (a.processor_job == n) = false := by
      simpa using ha
    rw [List.filter_cons, hb]
    · exact ih (fun b hb2 => h b (List.mem_cons.mpr (Or.inr hb2)))

theorem filter_beq_map_self (n : Nat) :
    ∀ fs : List OriginalFile,
      (((fs.map (fun f =>
          ({ processor_job := n, original_file := f.id } : PJOFAssociation))).filter
            (fun a => a.processor_job == n)).map (fun a => a.original_file))
        = fs.map (fun f => f.id) := by
  intro fs
  induction fs with
  | nil => rfl
  | cons f t ih =>
    simp only [List.map_cons, List.filter_cons]
    simp [ih]

/-- File-id list attached, at the end of the loop, to a job created at id
`n`: associations persisted before it have smaller job ids and associations
persisted after it have larger ones, so the filter picks exactly the
associations of this job. -/
theorem jobFileIds_of_fold (ctx : Ctx) (rl : List Sample) (st1 : Store)
    (n : Nat) (base stepA : List PJOFAssociation)
    (hsplit : st1.assocs = base ++ stepA)
    (hbase : ∀ a ∈ base, a.processor_job < n)
    (hstep : ∀ a ∈ stepA, a.processor_job = n)
    (hnext : n < st1.next_job_id)
    (J : ProcessorJob) (hJ : J.id = n) :
    jobFileIds (rl.foldl (detectorStep ctx) st1) J
      = stepA.map (fun a => a.original_file) := by
  obtain ⟨A, hA, hge⟩ := foldl_step_assocs_ge ctx rl st1
  rw [jobFileIds, hA, hsplit, List.append_assoc, List.filter_append, List.filter_append]
  have h1 : base.filter (fun a => a.processor_job == J.id) = [] := by
    refine filter_beq_nil _ _ ?_
    intro a ha
    rw [hJ]
    exact Nat.ne_of_lt (hbase a ha)
  have h2 : stepA.filter (fun a => a.processor_job == J.id) = stepA := by
    refine List.filter_eq_self.mpr ?_
    intro a ha
    rw [hstep a ha, hJ]
    simp
  have h3 : A.filter (fun a => a.processor_job == J.id) = [] := by
    refine filter_beq_nil _ _ ?_
    intro a ha
    have h5 : st1.next_job_id ≤ a.processor_job := hge a ha
    rw [hJ]
    omega
  rw [h1, h2, h3, List.append_nil, List.nil_append]

/-- Weak characterization of the detector's loop: every job present after
the loop was either already present before it, or covers exactly the file
ids of one of the looped-over samples. -/
theorem foldl_step_jobs_from (ctx : Ctx) (store : Store) :
    ∀ (l : List Sample) (st : Store),
      st.samples = store.samples →
      st.files.map (fun x => x.id) = store.files.map (fun x => x.id) →
      (∀ a ∈ st.assocs, a.processor_job < st.next_job_id) →
      ∀ j ∈ (l.foldl (detectorStep ctx) st).jobs,
        j ∈ st.jobs
          ∨ ∃ s ∈ l, jobFileIds (l.foldl (detectorStep ctx) st) j = fileIdsOf store s := by
  intro l
  induction l with
  | nil =>
    intro st _ _ _ j hj
    exact Or.inl hj
  | cons s rl ih =>
    intro st hsamp hfids hassoc j hj
    rw [List.foldl_cons] at hj
    rcases create_eq_cases ctx st (originalFilesOf st s) with
      ⟨heq, -⟩ | ⟨f0, t, heqfs, -, heq⟩ | ⟨f0, t, r, heqfs, -, -, heq⟩
    · rw [detectorStep, heq] at hj
      rcases ih st hsamp hfids hassoc j hj with h | ⟨s2, hs2, hfid⟩
      · exact Or.inl h
      · refine Or.inr ⟨s2, List.mem_cons.mpr (Or.inr hs2), ?_⟩
        rw [List.foldl_cons, detectorStep, heq]
        exact hfid
    · have hcomp := foldl_clearFile_spec (originalFilesOf st s) st
      rw [detectorStep, heq] at hj
      have hsamp1 := hcomp.2.2.2.1
      have hfids1 := hcomp.2.2.2.2.2
      have hassoc1 : ∀ a ∈ (List.foldl
            (fun st2 f => saveFile st2 { f with local_copy := false, is_downloaded := false })
            st (originalFilesOf st s)).assocs,
          a.processor_job < (List.foldl
            (fun st2 f => saveFile st2 { f with local_copy := false, is_downloaded := false })
            st (originalFilesOf st s)).next_job_id := by
        rw [hcomp.2.1, hcomp.2.2.1]
        exact hassoc
      rcases ih _ (by rw [hsamp1]; exact hsamp) (by rw [hfids1]; exact hfids) hassoc1 j hj
        with h | ⟨s2, hs2, hfid⟩
      · rw [hcomp.1] at h
        exact Or.inl h
      · refine Or.inr ⟨s2, List.mem_cons.mpr (Or.inr hs2), ?_⟩
        rw [List.foldl_cons, detectorStep, heq]
        exact hfid
    · rw [detectorStep, heq] at hj
      set J : ProcessorJob :=
        { id := st.next_job_id,
          pipeline_applied :=
            (ctx.determine_processor_pipeline
              (f0.sample_ids.head?.bind (lookupSample st)) f0).value,
          ram_amount := r } with hJdef
      set st1 : Store :=
        { st with
          jobs := st.jobs ++ [J],
          assocs := st.assocs
            ++ (originalFilesOf st s).map (fun f =>
                { processor_job := st.next_job_id, original_file := f.id }),
          next_job_id := st.next_job_id + 1,
          events := st.events
            ++ Event.jobSaved st.next_job_id
              :: (originalFilesOf st s).map (fun f =>
                  Event.assocSaved st.next_job_id f.id) } with hst1
      have hassoc1 : ∀ a ∈ st1.assocs, a.processor_job < st1.next_job_id := by
        intro a ha
        rcases List.mem_append.mp ha with h1 | h2
        · exact Nat.lt_succ_of_lt (hassoc a h1)
        · rcases List.mem_map.mp h2 with ⟨f, -, rfl⟩
          exact Nat.lt_succ_self _
      rcases ih st1 hsamp hfids hassoc1 j hj with h | ⟨s2, hs2, hfid⟩
      · rcases List.mem_append.mp h with h1 | h2
        · exact Or.inl h1
        · rcases List.mem_singleton.mp h2 with rfl
          refine Or.inr ⟨s, List.mem_cons_self s rl, ?_⟩
          rw [List.foldl_cons, detectorStep, heq]
          have hres := jobFileIds_of_fold ctx rl st1 st.next_job_id st.assocs
            ((originalFilesOf st s).map (fun f =>
              { processor_job := st.next_job_id, original_file := f.id }))
            rfl (fun a ha => hassoc a ha)
            (by intro a ha; rcases List.mem_map.mp ha with ⟨f, -, rfl⟩; rfl)
            (Nat.lt_succ_self _) J rfl
          rw [hres, List.map_map]
          have : fileIdsOf st s = fileIdsOf store s := fileIdsOf_congr st store s hfids
          rw [← this, fileIdsOf]
          rfl
      · refine Or.inr ⟨s2, List.mem_cons.mpr (Or.inr hs2), ?_⟩
        rw [List.foldl_cons, detectorStep, heq]
        exact hfid

/-! ## Lemmas about the version list -/

theorem mem_salmon_versions (store : Store) (exp : Experiment) (v : String) :
    v ∈ salmon_versions store exp ↔
      ∃ r ∈ get_quant_results_for_experiment store exp,
        r.organism_index.salmon_version = v := by
  rw [salmon_versions]
  constructor
  · intro hv
    rcases List.mem_map.mp hv with ⟨p, hp, rfl⟩
    rw [mem_dedupKeepFirst] at hp
    rcases List.mem_map.mp hp with ⟨r, hr, rfl⟩
    rw [mem_sortDescBy] at hr
    exact ⟨r, hr, rfl⟩
  · rintro ⟨r, hr, rfl⟩
    refine List.mem_map.mpr
      ⟨(r.organism_index.salmon_version, r.organism_index.created_at), ?_, rfl⟩
    rw [mem_dedupKeepFirst]
    exact List.mem_map.mpr ⟨r, (mem_sortDescBy _ _ _).mpr hr, rfl⟩

theorem salmon_versions_head (store : Store) (exp : Experiment) :
    (salmon_versions store exp).head?
      = ((sortDescBy (fun r => r.organism_index.created_at)
          (get_quant_results_for_experiment store exp)).head?).map
        (fun r => r.organism_index.salmon_version) := by
  rw [salmon_versions]
  cases h : sortDescBy (fun r => r.organism_index.created_at)
      (get_quant_results_for_experiment store exp) with
  | nil => simp [dedupKeepFirst, dedupFirstAux]
  | cons r rest => simp [dedupKeepFirst, dedupFirstAux]

theorem headD_mem (l : List α) (d : α) (h : l ≠ []) : l.headD d ∈ l := by
  cases l with
  | nil => exact absurd rfl h
  | cons a t => exact List.mem_cons_self a t

theorem mem_of_head_eq (l : List α) (a : α) (h : l.head? = some a) : a ∈ l := by
  cases l with
  | nil => cases h
  | cons b t =>
    injection h with h1
    rw [← h1]
    exact List.mem_cons_self b t

theorem eq_of_dedup_length_le_one [DecidableEq α] (l : List α)
    (h : l.dedup.length ≤ 1) : ∀ x ∈ l, ∀ y ∈ l, x = y := by
  intro x hx y hy
  have hx2 : x ∈ l.dedup := List.mem_dedup.mpr hx
  have hy2 : y ∈ l.dedup := List.mem_dedup.mpr hy
  cases hd : l.dedup with
  | nil =>
    rw [hd] at hx2
    cases hx2
  | cons a t =>
    rw [hd] at hx2 hy2 h
    rw [List.length_cons] at h
    have ht0 : t.length = 0 := by omega
    have ht : t = [] := List.length_eq_zero.mp ht0
    subst ht
    rcases List.mem_singleton.mp hx2 with rfl
    exact (List.mem_singleton.mp hy2).symm

/-- Unpack a non-NULL per-sample annotation: it is the version of some
quantification result of that sample. -/
theorem annotated_some (store : Store) (s : Sample) (w : String)
    (h : annotated_salmon_version store s = some w) :
    ∃ r, r ∈ store.results ∧ s.id ∈ r.sample_ids
      ∧ r.processor_name = SALMON_QUANT_NAME
      ∧ r.organism_index.salmon_version = w := by
  rw [annotated_salmon_version] at h
  rcases Option.map_eq_some'.mp h with ⟨r, hr, rfl⟩
  have hmem := mem_of_head_eq _ _ hr
  rw [mem_sortDescBy] at hmem
  rcases List.mem_filter.mp hmem with ⟨hres, hcond⟩
  simp only [Bool.and_eq_true] at hcond
  obtain ⟨h1, h2⟩ := hcond
  refine ⟨r, hres, ?_, ?_, rfl⟩
  · simpa using h1
  · simpa using h2

/-- A quantification result of a sample of the experiment belongs to the
experiment's quantification results. -/
theorem result_mem_quant (store : Store) (exp : Experiment) (s : Sample)
    (r : ComputationalResult)
    (hs : s ∈ samplesOf store exp)
    (hres : r ∈ store.results)
    (hmemid : s.id ∈ r.sample_ids)
    (hproc : r.processor_name = SALMON_QUANT_NAME) :
    r ∈ get_quant_results_for_experiment store exp := by
  rcases List.mem_filter.mp hs with ⟨-, hsid⟩
  refine List.mem_filter.mpr ⟨hres, ?_⟩
  have h1 : (r.processor_name == SALMON_QUANT_NAME) = true := by simpa using hproc
  simp [h1]
  exact ⟨s.id, hmemid, by simpa using hsid⟩

/-! ## Lemmas about clearing files in the NONE branch -/

theorem mem_saveFile_id_eq (st : Store) (f g : OriginalFile)
    (hg : g ∈ (saveFile st f).files) (hid : g.id = f.id) : g = f := by
  simp only [saveFile] at hg
  rcases List.mem_map.mp hg with ⟨x, hx, hgx⟩
  by_cases h : (x.id == f.id) = true
  · rw [if_pos h] at hgx
    exact hgx.symm
  · rw [if_neg h] at hgx
    subst hgx
    exact absurd (by simpa using hid) h

theorem mem_saveFile_id_ne (st : Store) (f g : OriginalFile)
    (hg : g ∈ (saveFile st f).files) (hid : g.id ≠ f.id) : g ∈ st.files := by
  simp only [saveFile] at hg
  rcases List.mem_map.mp hg with ⟨x, hx, hgx⟩
  by_cases h : (x.id == f.id) = true
  · rw [if_pos h] at hgx
    subst hgx
    exact absurd rfl hid
  · rw [if_neg h] at hgx
    subst hgx
    exact hx

/-- After the NONE branch's loop, every stored file named by the batch has
its downloaded flag and its local copy cleared, and every other stored
file is untouched. -/
theorem clear_fold_flags :
    ∀ (fs : List OriginalFile) (st : Store) (g : OriginalFile),
      g ∈ (fs.foldl
        (fun st2 f => saveFile st2 { f with local_copy := false, is_downloaded := false })
        st).files →
      ((g.id ∈ fs.map (fun x => x.id) →
          g.is_downloaded = false ∧ g.local_copy = false)
        ∧ (g.id ∉ fs.map (fun x => x.id) → g ∈ st.files)) := by
  intro fs
  induction fs with
  | nil =>
    intro st g hg
    exact ⟨fun h => absurd h (List.not_mem_nil _), fun _ => hg⟩
  | cons f rest ih =>
    intro st g hg
    rw [List.foldl_cons] at hg
    have IH := ih (saveFile st { f with local_copy := false, is_downloaded := false }) g hg
    constructor
    · intro hid
      rw [List.map_cons] at hid
      rcases List.mem_cons.mp hid with hid1 | hid2
      · by_cases hrest : g.id ∈ rest.map (fun x => x.id)
        · exact IH.1 hrest
        · have hmem := IH.2 hrest
          have hgf : g = { f with local_copy := false, is_downloaded := false } :=
            mem_saveFile_id_eq _ _ _ hmem hid1
          rw [hgf]
          exact ⟨rfl, rfl⟩
      · exact IH.1 hid2
    · intro hid
      rw [List.map_cons] at hid
      have hid2 : g.id ∉ rest.map (fun x => x.id) :=
        fun hc => hid (List.mem_cons.mpr (Or.inr hc))
      have hid1 : g.id ≠ f.id := fun hc => hid (List.mem_cons.mpr (Or.inl hc))
      exact mem_saveFile_id_ne _ _ _ (IH.2 hid2) hid1

/-! ## Tracking the immutable file attributes through the detector loop

The NONE branch of the Job Factory mutates only the downloaded flag and
the local copy of a file, never its `fileCore` (id, filename, raw flag,
sample links).  These lemmas propagate the core image of the file table
through the loop, so that pipeline selection and file-id collection can be
evaluated against the initial store. -/

theorem map_filter_congr (g : α → β) (p : α → Bool) (q : β → Bool)
    (hpq : ∀ x, p x = q (g x)) :
    ∀ (l m : List α), l.map g = m.map g →
      (l.filter p).map g = (m.filter p).map g := by
  intro l
  induction l with
  | nil =>
    intro m h
    rw [List.map_nil] at h
    rw [List.map_eq_nil_iff.mp h.symm]
  | cons a l2 ih =>
    intro m h
    cases m with
    | nil => simp at h
    | cons b m2 =>
      rw [List.map_cons, List.map_cons] at h
      injection h with h1 h2
      rw [List.filter_cons, List.filter_cons]
      have hp : p a = p b := by rw [hpq a, hpq b, h1]
      by_cases hc : p a = true
      · rw [if_pos hc, if_pos (by rw [← hp]; exact hc)]
        rw [List.map_cons, List.map_cons, h1, ih m2 h2]
      · rw [if_neg hc, if_neg (by rw [← hp]; exact hc)]
        exact ih m2 h2

theorem eq_of_mem_id_nodup :
    ∀ l : List OriginalFile, ((l.map (fun x => x.id)).Nodup) →
      ∀ f ∈ l, ∀ g ∈ l, f.id = g.id → f = g := by
  intro l
  induction l with
  | nil =>
    intro _ f hf
    cases hf
  | cons a t ih =>
    intro hnd f hf g hg hid
    rw [List.map_cons, List.nodup_cons] at hnd
    obtain ⟨hna, hnt⟩ := hnd
    rcases List.mem_cons.mp hf with rfl | hf2
    · rcases List.mem_cons.mp hg with rfl | hg2
      · rfl
      · exact absurd (by rw [hid]; exact List.mem_map.mpr ⟨g, hg2, rfl⟩) hna
    · rcases List.mem_cons.mp hg with rfl | hg2
      · exact absurd (by rw [← hid]; exact List.mem_map.mpr ⟨f, hf2, rfl⟩) hna
      · exact ih hnt f hf2 g hg2 hid

theorem map_core_update (fmod : OriginalFile) :
    ∀ l : List OriginalFile,
      (∀ g ∈ l, g.id = fmod.id → fileCore g = fileCore fmod) →
      (l.map (fun g => if g.id == fmod.id then fmod else g)).map fileCore
        = l.map fileCore := by
  intro l
  induction l with
  | nil => intro _; rfl
  | cons a t ih =>
    intro h
    have htail := ih (fun g hg hid => h g (List.mem_cons.mpr (Or.inr hg)) hid)
    simp only [List.map_cons, htail, List.cons.injEq]
    refine ⟨?_, trivial⟩
    by_cases hc : (a.id == fmod.id) = true
    · rw [if_pos hc]
      exact (h a (List.mem_cons_self a t) (by simpa using hc)).symm
    · rw [if_neg hc]

theorem saveFile_core_eq (st : Store) (fmod : OriginalFile)
    (h : ∀ g ∈ st.files, g.id = fmod.id → fileCore g = fileCore fmod) :
    (saveFile st fmod).files.map fileCore = st.files.map fileCore := by
  simp only [saveFile]
  exact map_core_update fmod st.files h

/-- The NONE branch's clearing loop leaves the core image of the file
table unchanged, provided the store's file ids are unique and every file
in the batch has a core twin in the reference store. -/
theorem clear_fold_core (store : Store)
    (hnodup : (store.files.map (fun x => x.id)).Nodup) :
    ∀ (fs : List OriginalFile) (st : Store),
      st.files.map fileCore = store.files.map fileCore →
      (∀ f ∈ fs, ∃ g ∈ store.files, fileCore g = fileCore f) →
      ((fs.foldl (fun st2 f =>
          saveFile st2 { f with local_copy := false, is_downloaded := false })
        st).files.map fileCore) = store.files.map fileCore := by
  intro fs
  induction fs with
  | nil =>
    intro st h _
    exact h
  | cons f rest ih =>
    intro st hcore hmem
    rw [List.foldl_cons]
    refine ih _ ?_ (fun f2 hf2 => hmem f2 (List.mem_cons.mpr (Or.inr hf2)))
    rw [saveFile_core_eq, hcore]
    intro g hg hid
    obtain ⟨gf, hgf, hgfcore⟩ := hmem f (List.mem_cons_self f rest)
    have hgin : fileCore g ∈ store.files.map fileCore := by
      rw [← hcore]
      exact List.mem_map.mpr ⟨g, hg, rfl⟩
    obtain ⟨g2, hg2, hg2core⟩ := List.mem_map.mp hgin
    have e1 : g2.id = g.id := congrArg Prod.fst hg2core
    have e2 : gf.id = f.id := congrArg Prod.fst hgfcore
    have hid2 : g2.id = gf.id := by
      rw [e1, e2]
      exact hid
    have hg2gf : g2 = gf := eq_of_mem_id_nodup store.files hnodup g2 hg2 gf hgf hid2
    calc fileCore g = fileCore g2 := hg2core.symm
      _ = fileCore gf := by rw [hg2gf]
      _ = fileCore f := hgfcore
      _ = fileCore { f with local_copy := false, is_downloaded := false } := rfl

/-- Core image of a sample's file list, transported between two store
states whose file tables agree on cores. -/
theorem originalFilesOf_core (st store : Store) (s : Sample)
    (hcore : st.files.map fileCore = store.files.map fileCore) :
    (originalFilesOf st s).map fileCore = (originalFilesOf store s).map fileCore := by
  rw [originalFilesOf, originalFilesOf]
  exact map_filter_congr fileCore
    (fun f => s.original_file_ids.contains f.id)
    (fun c => s.original_file_ids.contains c.1)
    (fun _ => rfl) st.files store.files hcore

theorem fileIds_bridge (st store : Store) (s : Sample)
    (hcore : st.files.map fileCore = store.files.map fileCore) :
    (originalFilesOf st s).map (fun x => x.id) = fileIdsOf store s := by
  have h := congrArg (List.map Prod.fst) (originalFilesOf_core st store s hcore)
  rw [fileIdsOf]
  simpa [List.map_map, fileCore] using h

/-- The pipeline the factory computes at a loop state equals the pipeline
computed against the initial store, for any selector that reads only the
immutable attributes of a file. -/
theorem pipelineOf_bridge (ctx : Ctx) (store : Store)
    (hsel : ∀ so f g, fileCore f = fileCore g →
      ctx.determine_processor_pipeline so f = ctx.determine_processor_pipeline so g)
    (st : Store) (hsamp : st.samples = store.samples)
    (hcore : st.files.map fileCore = store.files.map fileCore) (s : Sample)
    (f0p : OriginalFile) (tp : List OriginalFile)
    (hst : originalFilesOf st s = f0p :: tp)
    (f0 : OriginalFile) (t : List OriginalFile)
    (hstore : originalFilesOf store s = f0 :: t) :
    ctx.determine_processor_pipeline (f0p.sample_ids.head?.bind (lookupSample st)) f0p
      = pipelineOf ctx store s := by
  have hofcore := originalFilesOf_core st store s hcore
  rw [hst, hstore, List.map_cons, List.map_cons] at hofcore
  injection hofcore with hhead htail
  have hsid : f0p.sample_ids = f0.sample_ids :=
    congrArg (fun c => c.2.2.2) hhead
  have hbind : f0p.sample_ids.head?.bind (lookupSample st)
      = f0.sample_ids.head?.bind (lookupSample store) := by
    rw [hsid]
    cases f0.sample_ids.head? with
    | none => rfl
    | some i =>
      show lookupSample st i = lookupSample store i
      exact lookupSample_congr st store i hsamp
  have h1 : ctx.determine_processor_pipeline
      (f0p.sample_ids.head?.bind (lookupSample st)) f0p
      = ctx.determine_processor_pipeline
        (f0p.sample_ids.head?.bind (lookupSample st)) f0 := hsel _ _ _ hhead
  rw [h1, hbind]
  simp only [pipelineOf, hstore]

/-- The spec-modelled selector reads only the immutable attributes of a
file (its raw flag and filename), never its downloaded state. -/
theorem spec_selector_core (so : Option Sample) (f g : OriginalFile)
    (h : fileCore f = fileCore g) :
    determine_processor_pipeline_spec so f = determine_processor_pipeline_spec so g := by
  have hname : f.filename = g.filename := congrArg (fun c => c.2.1) h
  have hraw : f.has_raw = g.has_raw := congrArg (fun c => c.2.2.1) h
  rw [determine_processor_pipeline_spec, determine_processor_pipeline_spec, hname, hraw]

/-- Per-sample characterization of the detector's loop over an arbitrary
mix of samples: exactly one job is appended for each processable sample
(non-empty file list and non-NONE pipeline, both judged against the
initial store), in order, covering exactly that sample's file ids and
carrying its selected pipeline; unprocessable samples contribute no job.
Requires that the selector reads only a file's immutable attributes
(`fileCore`), since the NONE branch mutates the downloaded state of files
mid-loop, and that the store's file ids are unique. -/
theorem foldl_step_mixed (ctx : Ctx) (store : Store)
    (hsel : ∀ so f g, fileCore f = fileCore g →
      ctx.determine_processor_pipeline so f = ctx.determine_processor_pipeline so g)
    (hnodup : (store.files.map (fun x => x.id)).Nodup) :
    ∀ (l : List Sample) (st : Store),
      st.samples = store.samples →
      st.files.map fileCore = store.files.map fileCore →
      (∀ a ∈ st.assocs, a.processor_job < st.next_job_id) →
      (∀ j ∈ st.jobs, j.id < st.next_job_id) →
      ∃ newJobs,
        (l.foldl (detectorStep ctx) st).jobs = st.jobs ++ newJobs
        ∧ newJobs.length = (l.filter (fun s => isProcessable ctx store s)).length
        ∧ List.Forall₂ (fun s j =>
            jobFileIds (l.foldl (detectorStep ctx) st) j = fileIdsOf store s
            ∧ j.pipeline_applied = (pipelineOf ctx store s).value)
          (l.filter (fun s => isProcessable ctx store s)) newJobs := by
  intro l
  induction l with
  | nil =>
    intro st _ _ _ _
    exact ⟨[], by simp, by simp, List.Forall₂.nil⟩
  | cons s rl ih =>
    intro st hsamp hcore hassoc hjobs
    have hofcore := originalFilesOf_core st store s hcore
    rw [List.foldl_cons]
    cases hstore : originalFilesOf store s with
    | nil =>
      have hstnil : originalFilesOf st s = [] := by
        rw [hstore, List.map_nil] at hofcore
        exact List.map_eq_nil_iff.mp hofcore
      have hstep : detectorStep ctx st s = st := by
        rw [detectorStep, hstnil]
        rfl
      have hproc : isProcessable ctx store s = false := by
        simp [isProcessable, hstore]
      rw [hstep, List.filter_cons, hproc, if_neg (by simp)]
      exact ih st hsamp hcore hassoc hjobs
    | cons f0 t =>
      obtain ⟨f0p, tp, hst⟩ : ∃ f0p tp, originalFilesOf st s = f0p :: tp := by
        cases hc : originalFilesOf st s with
        | nil =>
          rw [hc, hstore] at hofcore
          simp at hofcore
        | cons a b => exact ⟨a, b, rfl⟩
      have hpipe :=
        pipelineOf_bridge ctx store hsel st hsamp hcore s f0p tp hst f0 t hstore
      by_cases hnone : pipelineOf ctx store s = ProcessorPipeline.NONE
      · -- the factory takes the NONE branch: flags cleared, nothing created
        have hproc : isProcessable ctx store s = false := by
          simp [isProcessable, hnone]
        rcases create_eq_cases ctx st (originalFilesOf st s) with
          ⟨-, hnil2⟩ | ⟨f1, t1, heq1, -, hcr⟩ | ⟨f1, t1, r, heq1, hne, -, -⟩
        · rw [hst] at hnil2
          exact absurd hnil2 (List.cons_ne_nil f0p tp)
        · have hcomp := foldl_clearFile_spec (originalFilesOf st s) st
          have hstep : detectorStep ctx st s
              = (originalFilesOf st s).foldl
                  (fun st2 f =>
                    saveFile st2 { f with local_copy := false, is_downloaded := false })
                  st := by
            rw [detectorStep, hcr]
          have hmemtwin : ∀ f ∈ originalFilesOf st s,
              ∃ g ∈ store.files, fileCore g = fileCore f := by
            intro f hf
            have hfst : f ∈ st.files := (List.mem_filter.mp hf).1
            have : fileCore f ∈ store.files.map fileCore := by
              rw [← hcore]
              exact List.mem_map.mpr ⟨f, hfst, rfl⟩
            rcases List.mem_map.mp this with ⟨g, hg, hgc⟩
            exact ⟨g, hg, hgc⟩
          have hcore1 := clear_fold_core store hnodup (originalFilesOf st s) st
            hcore hmemtwin
          have hsamp1 : ((originalFilesOf st s).foldl
              (fun st2 f =>
                saveFile st2 { f with local_copy := false, is_downloaded := false })
              st).samples = store.samples := by
            rw [hcomp.2.2.2.1]
            exact hsamp
          have hassoc1 : ∀ a ∈ ((originalFilesOf st s).foldl
              (fun st2 f =>
                saveFile st2 { f with local_copy := false, is_downloaded := false })
              st).assocs,
              a.processor_job < ((originalFilesOf st s).foldl
                (fun st2 f =>
                  saveFile st2 { f with local_copy := false, is_downloaded := false })
                st).next_job_id := by
            rw [hcomp.2.1, hcomp.2.2.1]
            exact hassoc
          have hjobs1 : ∀ j ∈ ((originalFilesOf st s).foldl
              (fun st2 f =>
                saveFile st2 { f with local_copy := false, is_downloaded := false })
              st).jobs,
              j.id < ((originalFilesOf st s).foldl
                (fun st2 f =>
                  saveFile st2 { f with local_copy := false, is_downloaded := false })
                st).next_job_id := by
            rw [hcomp.1, hcomp.2.2.1]
            exact hjobs
          obtain ⟨nj, hjobs2, hlen2, hfa2⟩ := ih _ hsamp1 hcore1 hassoc1 hjobs1
          rw [hstep, List.filter_cons, hproc, if_neg (by simp)]
          refine ⟨nj, ?_, hlen2, hfa2⟩
          rw [hjobs2, hcomp.1]
        · have : f1 :: t1 = f0p :: tp := heq1.symm.trans hst
          injection this with e1 e2
          subst e1
          exact absurd (hpipe.trans hnone) hne
      · -- the factory persists a job for this sample
        have hproc : isProcessable ctx store s = true := by
          simp [isProcessable, hstore, hnone]
        have hp : ctx.determine_processor_pipeline
            (f0p.sample_ids.head?.bind (lookupSample st)) f0p
            ≠ ProcessorPipeline.NONE := by
          rw [hpipe]
          exact hnone
        obtain ⟨r, -, hcr⟩ := create_else_eq ctx st f0p tp hp
        rw [hpipe] at hcr
        have hstep : detectorStep ctx st s
            = { st with
                jobs := st.jobs ++
                  [{ id := st.next_job_id,
                     pipeline_applied := (pipelineOf ctx store s).value,
                     ram_amount := r }],
                assocs := st.assocs
                  ++ (f0p :: tp).map (fun f =>
                      { processor_job := st.next_job_id, original_file := f.id }),
                next_job_id := st.next_job_id + 1,
                events := st.events
                  ++ Event.jobSaved st.next_job_id
                    :: (f0p :: tp).map (fun f =>
                        Event.assocSaved st.next_job_id f.id) } := by
          rw [detectorStep, hst, hcr]
        rw [hstep]
        set J : ProcessorJob :=
          { id := st.next_job_id,
            pipeline_applied := (pipelineOf ctx store s).value,
            ram_amount := r } with hJ
        set stepA : List PJOFAssociation :=
          (f0p :: tp).map (fun f =>
            { processor_job := st.next_job_id, original_file := f.id }) with hstepA
        set st1 : Store :=
          { st with
            jobs := st.jobs ++ [J],
            assocs := st.assocs ++ stepA,
            next_job_id := st.next_job_id + 1,
            events := st.events
              ++ Event.jobSaved st.next_job_id
                :: (f0p :: tp).map (fun f => Event.assocSaved st.next_job_id f.id) }
          with hst1
        have hassoc1 : ∀ a ∈ st1.assocs, a.processor_job < st1.next_job_id := by
          intro a ha
          rcases List.mem_append.mp ha with h1 | h2
          · exact Nat.lt_succ_of_lt (hassoc a h1)
          · rw [hstepA] at h2
            rcases List.mem_map.mp h2 with ⟨f, -, rfl⟩
            exact Nat.lt_succ_self _
        have hjobs1 : ∀ j ∈ st1.jobs, j.id < st1.next_job_id := by
          intro j hj
          rcases List.mem_append.mp hj with h1 | h2
          · exact Nat.lt_succ_of_lt (hjobs j h1)
          · rcases List.mem_singleton.mp h2 with rfl
            exact Nat.lt_succ_self _
        obtain ⟨nj, hjobs2, hlen2, hfa2⟩ := ih st1 hsamp hcore hassoc1 hjobs1
        rw [List.filter_cons, hproc, if_pos rfl]
        refine ⟨J :: nj, ?_, ?_, ?_⟩
        · rw [hjobs2]
          show (st.jobs ++ [J]) ++ nj = st.jobs ++ J :: nj
          rw [List.append_assoc, List.singleton_append]
        · simp [hlen2]
        · refine List.Forall₂.cons ⟨?_, rfl⟩ hfa2
          have hres := jobFileIds_of_fold ctx rl st1 st.next_job_id st.assocs stepA
            rfl (fun a ha => hassoc a ha)
            (by
              intro a ha
              rw [hstepA] at ha
              rcases List.mem_map.mp ha with ⟨f, -, rfl⟩
              rfl)
            (Nat.lt_succ_self _) J rfl
          rw [hres, hstepA, List.map_map]
          have hbr := fileIds_bridge st store s hcore
          rw [← hbr, hst]
          rfl

/-! ## Claim theorems -/

/-- C2 counterexample: at store `cx2`, the list the code builds (ordered by
organism-index creation timestamp, distinct over (version, timestamp)
pairs) is ["B", "A", "A"], while the claim's recipe (ordered by result
creation timestamp, deduplicated) yields ["A", "B"]; the two disagree both
in order and in the duplicate "A". -/
theorem C2_counterexample : claimed_versions cx2 cx2_e ≠ salmon_versions cx2 cx2_e := by
  decide

/-- C2 (amended): the version list V built by the Staleness Detector
contains exactly the tool versions appearing in the experiment's
quantification results, and V[0] is the version of the result whose
organism index was created most recently (the code orders by the organism
index's creation timestamp, not the result's; deduplication acts on
(version, index-timestamp) pairs, so a version can repeat). -/
theorem C2_amended_versions (store : Store) (exp : Experiment) :
    (∀ v, v ∈ salmon_versions store exp ↔
      ∃ r ∈ get_quant_results_for_experiment store exp,
        r.organism_index.salmon_version = v)
    ∧ (salmon_versions store exp).head?
        = ((sortDescBy (fun r => r.organism_index.created_at)
            (get_quant_results_for_experiment store exp)).head?).map
          (fun r => r.organism_index.salmon_version) :=
  ⟨fun v => mem_salmon_versions store exp v, salmon_versions_head store exp⟩

/-- C9: when the experiment's quantification results carry at most one
distinct tool version — whether measured as truly-distinct versions or as
the length of the code's own `salmon_versions` list — the Staleness
Detector returns the store unchanged: no job, association, file or event
is written. -/
theorem C9_single_version_no_writes (ctx : Ctx) (store : Store) (exp : Experiment)
    (h : ((get_quant_results_for_experiment store exp).map
          (fun r => r.organism_index.salmon_version)).dedup.length ≤ 1
        ∨ (salmon_versions store exp).length ≤ 1) :
    update_salmon_versions ctx store exp = store := by
  simp only [update_salmon_versions]
  by_cases hg : (salmon_versions store exp).length ≤ 1
  · rw [if_pos hg]
  · rw [if_neg hg]
    rcases h with hded | hlen
    · have hstale : staleSamples store exp ((salmon_versions store exp).headD "") = [] := by
        rw [staleSamples]
        refine List.filter_eq_nil_iff.mpr ?_
        intro s hs
        cases hann : annotated_salmon_version store s with
        | none => simp [isStale, hann]
        | some w =>
          rcases annotated_some store s w hann with ⟨r, hres, hmem, hproc, hver⟩
          have hrq : r ∈ get_quant_results_for_experiment store exp :=
            result_mem_quant store exp s r hs hres hmem hproc
          have hlat : (salmon_versions store exp).headD "" ∈ salmon_versions store exp := by
            refine headD_mem _ _ ?_
            intro hnil
            rw [hnil] at hg
            exact hg (by simp)
          rcases (mem_salmon_versions store exp _).mp hlat with ⟨r2, hr2q, hv2⟩
          have hsame : r.organism_index.salmon_version = r2.organism_index.salmon_version :=
            eq_of_dedup_length_le_one _ hded _
              (List.mem_map.mpr ⟨r, hrq, rfl⟩) _ (List.mem_map.mpr ⟨r2, hr2q, rfl⟩)
          have hw : w = (salmon_versions store exp).headD "" := by
            rw [← hver, hsame, hv2]
          simp [isStale, hann, hw]
      rw [hstale]
      rfl
    · exact absurd hlen hg

/-- C9 witness: at store `w9` the experiment's results carry the single
version "1.0.0", and the detector leaves the store untouched. -/
theorem C9_witness :
    (((get_quant_results_for_experiment w9 fix_e12).map
        (fun r => r.organism_index.salmon_version)).dedup.length ≤ 1
      ∨ (salmon_versions w9 fix_e12).length ≤ 1)
    ∧ update_salmon_versions specCtx w9 fix_e12 = w9 :=
  ⟨Or.inl (by decide),
    C9_single_version_no_writes specCtx w9 fix_e12 (Or.inl (by decide))⟩

/-- C8 counterexample: the test helper classifies a raw-data-lacking file
as "NO_OP" — it never returns the claim's NONE classification (and in the
helper a NO_OP job is still created for such a file). -/
theorem C8_counterexample :
    c8file.has_raw = false ∧ classify_original_file c8file = "NO_OP"
      ∧ classify_original_file c8file ≠ "NONE" := by
  refine ⟨rfl, by decide, by decide⟩

/-- C8 (amended): the classification of the GEO test helper is total and
deterministic over the closed set {NO_OP, AFFY_TO_PCL,
AGILENT_TWOCOLOR_TO_PCL}: NO_OP exactly when the file lacks the raw-data
flag, AFFY_TO_PCL exactly when it is raw-capable and its uppercased
filename contains "CEL", and AGILENT_TWOCOLOR_TO_PCL exactly otherwise. -/
theorem C8_amended_selector (f : OriginalFile) :
    (classify_original_file f = "NO_OP" ∨ classify_original_file f = "AFFY_TO_PCL"
      ∨ classify_original_file f = "AGILENT_TWOCOLOR_TO_PCL")
    ∧ (classify_original_file f = "NO_OP" ↔ f.has_raw = false)
    ∧ (classify_original_file f = "AFFY_TO_PCL"
        ↔ f.has_raw = true
          ∧ ∃ l r, upperChars f.filename = l ++ "CEL".toList ++ r)
    ∧ (classify_original_file f = "AGILENT_TWOCOLOR_TO_PCL"
        ↔ f.has_raw = true
          ∧ ¬∃ l r, upperChars f.filename = l ++ "CEL".toList ++ r) := by
  by_cases hr : f.has_raw = true
  · by_cases hs : hasSubstr ("CEL".toList) (upperChars f.filename) = true
    · have hc : classify_original_file f = "AFFY_TO_PCL" := by
        rw [classify_original_file, hr, if_neg (by simp), if_pos hs]
      have hsub := (hasSubstr_iff _ _).mp hs
      rw [hc]
      refine ⟨Or.inr (Or.inl rfl), ?_, ?_, ?_⟩
      · exact iff_of_false (by decide) (by simp [hr])
      · exact iff_of_true rfl ⟨hr, hsub⟩
      · refine iff_of_false (by decide) ?_
        rintro ⟨-, hn⟩
        exact hn hsub
    · have hc : classify_original_file f = "AGILENT_TWOCOLOR_TO_PCL" := by
        rw [classify_original_file, hr, if_neg (by simp), if_neg hs]
      have hnsub : ¬∃ l r, upperChars f.filename = l ++ "CEL".toList ++ r :=
        fun he => hs ((hasSubstr_iff _ _).mpr he)
      rw [hc]
      refine ⟨Or.inr (Or.inr rfl), ?_, ?_, ?_⟩
      · exact iff_of_false (by decide) (by simp [hr])
      · refine iff_of_false (by decide) ?_
        rintro ⟨-, he⟩
        exact hnsub he
      · exact iff_of_true rfl ⟨hr, hnsub⟩
  · have hrf : f.has_raw = false := by simpa using hr
    have hc : classify_original_file f = "NO_OP" := by
      rw [classify_original_file, hrf, if_pos (by simp)]
    rw [hc]
    refine ⟨Or.inl rfl, ?_, ?_, ?_⟩
    · exact iff_of_true rfl hrf
    · refine iff_of_false (by decide) ?_
      rintro ⟨h1, -⟩
      rw [hrf] at h1
      exact Bool.noConfusion h1
    · refine iff_of_false (by decide) ?_
      rintro ⟨h1, -⟩
      rw [hrf] at h1
      exact Bool.noConfusion h1

/-- C5: when the selected pipeline is NONE, the Job Factory creates no job
record and no association record, leaves the id sequence untouched, clears
the downloaded flag and discards the locally cached copy of every file in
the batch, leaves every other stored file unchanged, and returns normally
(it is a total function on the store). -/
theorem C5_none_pipeline_clears_files (ctx : Ctx) (store : Store)
    (original_files : List OriginalFile) (f0 : OriginalFile) (t : List OriginalFile)
    (hcons : original_files = f0 :: t)
    (hp : ctx.determine_processor_pipeline (f0.sample_ids.head?.bind (lookupSample store)) f0
        = ProcessorPipeline.NONE) :
    (create_processor_job_for_original_files ctx store original_files).jobs = store.jobs
    ∧ (create_processor_job_for_original_files ctx store original_files).assocs
        = store.assocs
    ∧ (create_processor_job_for_original_files ctx store original_files).next_job_id
        = store.next_job_id
    ∧ (∀ g ∈ (create_processor_job_for_original_files ctx store original_files).files,
        g.id ∈ original_files.map (fun x => x.id) →
          g.is_downloaded = false ∧ g.local_copy = false)
    ∧ (∀ g ∈ (create_processor_job_for_original_files ctx store original_files).files,
        g.id ∉ original_files.map (fun x => x.id) → g ∈ store.files) := by
  subst hcons
  rcases create_eq_cases ctx store (f0 :: t) with
    ⟨-, heq⟩ | ⟨f1, t1, heq, -, hcr⟩ | ⟨f1, t1, r, heq, hne, -, -⟩
  · exact absurd heq (List.cons_ne_nil f0 t)
  · rw [hcr]
    have hcomp := foldl_clearFile_spec (f0 :: t) store
    refine ⟨hcomp.1, hcomp.2.1, hcomp.2.2.1, ?_, ?_⟩
    · intro g hg hid
      exact (clear_fold_flags (f0 :: t) store g hg).1 hid
    · intro g hg hid
      exact (clear_fold_flags (f0 :: t) store g hg).2 hid
  · injection heq with h1 h2
    subst h1
    exact absurd hp hne

/-- C5 witness: at the concrete store `c4store`, with a selector that finds
no pipeline, the factory creates nothing and clears both batch files. -/
theorem C5_witness :
    ([c4file, c4fileB] = c4file :: [c4fileB])
    ∧ noneCtx.determine_processor_pipeline
        (c4file.sample_ids.head?.bind (lookupSample c4store)) c4file
        = ProcessorPipeline.NONE
    ∧ ((create_processor_job_for_original_files noneCtx c4store [c4file, c4fileB]).jobs
          = c4store.jobs
      ∧ (create_processor_job_for_original_files noneCtx c4store [c4file, c4fileB]).assocs
          = c4store.assocs
      ∧ (create_processor_job_for_original_files noneCtx c4store [c4file, c4fileB]).next_job_id
          = c4store.next_job_id
      ∧ (∀ g ∈ (create_processor_job_for_original_files noneCtx c4store
            [c4file, c4fileB]).files,
          g.id ∈ [c4file, c4fileB].map (fun x => x.id) →
            g.is_downloaded = false ∧ g.local_copy = false)
      ∧ (∀ g ∈ (create_processor_job_for_original_files noneCtx c4store
            [c4file, c4fileB]).files,
          g.id ∉ [c4file, c4fileB].map (fun x => x.id) → g ∈ c4store.files)) :=
  ⟨rfl, rfl,
    C5_none_pipeline_clears_files noneCtx c4store [c4file, c4fileB] c4file [c4fileB] rfl rfl⟩

/-- C6: when every dispatch submission fails, the Job Factory returns the
same store as a run whose submission succeeds — the failure is absorbed
inside the factory — and the job record and its associations are persisted
and remain in the returned store. -/
theorem C6_dispatch_failure_caught (ctx ctx2 : Ctx) (store : Store)
    (original_files : List OriginalFile) (f0 : OriginalFile) (t : List OriginalFile)
    (e : String)
    (hcons : original_files = f0 :: t)
    (hsel : ctx2.determine_processor_pipeline = ctx.determine_processor_pipeline)
    (hram : ctx2.determine_ram_amount = ctx.determine_ram_amount)
    (hfail : ctx.send_job = fun _ _ => Except.error e)
    (hp : ctx.determine_processor_pipeline (f0.sample_ids.head?.bind (lookupSample store)) f0
        ≠ ProcessorPipeline.NONE) :
    create_processor_job_for_original_files ctx store original_files
      = create_processor_job_for_original_files ctx2 store original_files
    ∧ ∃ r, (create_processor_job_for_original_files ctx store original_files).jobs
          = store.jobs ++
            [{ id := store.next_job_id,
               pipeline_applied :=
                 (ctx.determine_processor_pipeline
                   (f0.sample_ids.head?.bind (lookupSample store)) f0).value,
               ram_amount := r }]
        ∧ (create_processor_job_for_original_files ctx store original_files).assocs
          = store.assocs ++ original_files.map (fun f =>
              { processor_job := store.next_job_id, original_file := f.id }) := by
  subst hcons
  obtain ⟨r, hrpin, hcr⟩ := create_else_eq ctx store f0 t hp
  have hp2 : ctx2.determine_processor_pipeline
      (f0.sample_ids.head?.bind (lookupSample store)) f0 ≠ ProcessorPipeline.NONE := by
    rw [hsel]
    exact hp
  obtain ⟨r2, hrpin2, hcr2⟩ := create_else_eq ctx2 store f0 t hp2
  have hr12 : r2 = r := by
    rw [hrpin, hrpin2, hsel, hram]
  constructor
  · rw [hcr, hcr2, hr12, hsel]
  · refine ⟨r, ?_, ?_⟩
    · rw [hcr]
    · rw [hcr]

/-- C6 witness: at the concrete store `c4store` the factory behaves
identically under an always-failing and an always-succeeding dispatch
queue, with the job and both associations persisted. -/
theorem C6_witness :
    ([c4file, c4fileB] = c4file :: [c4fileB])
    ∧ salmonCtx.determine_processor_pipeline
        = salmonFailCtx.determine_processor_pipeline
    ∧ salmonCtx.determine_ram_amount = salmonFailCtx.determine_ram_amount
    ∧ salmonFailCtx.send_job = (fun _ _ => Except.error "queue down")
    ∧ salmonFailCtx.determine_processor_pipeline
        (c4file.sample_ids.head?.bind (lookupSample c4store)) c4file
        ≠ ProcessorPipeline.NONE
    ∧ (create_processor_job_for_original_files salmonFailCtx c4store [c4file, c4fileB]
        = create_processor_job_for_original_files salmonCtx c4store [c4file, c4fileB]
      ∧ ∃ r, (create_processor_job_for_original_files salmonFailCtx c4store
            [c4file, c4fileB]).jobs
          = c4store.jobs ++
            [{ id := c4store.next_job_id,
               pipeline_applied :=
                 (salmonFailCtx.determine_processor_pipeline
                   (c4file.sample_ids.head?.bind (lookupSample c4store)) c4file).value,
               ram_amount := r }]
        ∧ (create_processor_job_for_original_files salmonFailCtx c4store
            [c4file, c4fileB]).assocs
          = c4store.assocs ++ [c4file, c4fileB].map (fun f =>
              { processor_job := c4store.next_job_id, original_file := f.id })) :=
  ⟨rfl, rfl, rfl, rfl, by decide,
    C6_dispatch_failure_caught salmonFailCtx salmonCtx c4store [c4file, c4fileB]
      c4file [c4fileB] "queue down" rfl rfl rfl rfl (by decide)⟩

/-- C4 counterexample: called on the sequence [f, f] that repeats the same
input file, the factory persists one job and two associations, but the
associations point at the same file twice — "each association pointing to
a distinct input file" fails for this sequence. -/
theorem C4_counterexample :
    (create_processor_job_for_original_files salmonCtx c4store [c4file, c4file]).jobs.length
        = 1
    ∧ ((create_processor_job_for_original_files salmonCtx c4store [c4file, c4file]).assocs.map
        (fun a => a.original_file)) = [5, 5]
    ∧ ¬ (((create_processor_job_for_original_files salmonCtx c4store
          [c4file, c4file]).assocs.map (fun a => a.original_file)).Nodup) := by
  refine ⟨by decide, by decide, by decide⟩

/-- C4 (amended): for a non-empty sequence of pairwise-distinct input files
whose selected pipeline is not NONE, the factory persists exactly one job
record (with pipeline classification and RAM amount set), then exactly one
association per input file — each pointing to a distinct file — and the
persistence log shows the job record saved before every association. -/
theorem C4_amended_job_and_assocs (ctx : Ctx) (store : Store)
    (original_files : List OriginalFile) (f0 : OriginalFile) (t : List OriginalFile)
    (hcons : original_files = f0 :: t)
    (hnodup : (original_files.map (fun x => x.id)).Nodup)
    (hp : ctx.determine_processor_pipeline (f0.sample_ids.head?.bind (lookupSample store)) f0
        ≠ ProcessorPipeline.NONE) :
    ∃ r, create_processor_job_for_original_files ctx store original_files
        = { store with
            jobs := store.jobs ++
              [{ id := store.next_job_id,
                 pipeline_applied :=
                   (ctx.determine_processor_pipeline
                     (f0.sample_ids.head?.bind (lookupSample store)) f0).value,
                 ram_amount := r }],
            assocs := store.assocs
              ++ original_files.map (fun f =>
                  { processor_job := store.next_job_id, original_file := f.id }),
            next_job_id := store.next_job_id + 1,
            events := store.events
              ++ Event.jobSaved store.next_job_id
                :: original_files.map (fun f =>
                    Event.assocSaved store.next_job_id f.id) }
      ∧ ((original_files.map (fun f =>
          ({ processor_job := store.next_job_id, original_file := f.id } :
            PJOFAssociation))).map (fun a => a.original_file)).Nodup := by
  subst hcons
  obtain ⟨r, -, hcr⟩ := create_else_eq ctx store f0 t hp
  refine ⟨r, hcr, ?_⟩
  rw [List.map_map]
  simpa using hnodup

/-- C4 witness: at the concrete store `c4store` with two distinct files,
the factory persists one SALMON job followed by one association per file,
each pointing to a distinct file. -/
theorem C4_amended_witness :
    ([c4file, c4fileB] = c4file :: [c4fileB])
    ∧ (([c4file, c4fileB].map (fun x => x.id)).Nodup)
    ∧ salmonCtx.determine_processor_pipeline
        (c4file.sample_ids.head?.bind (lookupSample c4store)) c4file
        ≠ ProcessorPipeline.NONE
    ∧ ∃ r, create_processor_job_for_original_files salmonCtx c4store [c4file, c4fileB]
        = { c4store with
            jobs := c4store.jobs ++
              [{ id := c4store.next_job_id,
                 pipeline_applied :=
                   (salmonCtx.determine_processor_pipeline
                     (c4file.sample_ids.head?.bind (lookupSample c4store)) c4file).value,
                 ram_amount := r }],
            assocs := c4store.assocs
              ++ [c4file, c4fileB].map (fun f =>
                  { processor_job := c4store.next_job_id, original_file := f.id }),
            next_job_id := c4store.next_job_id + 1,
            events := c4store.events
              ++ Event.jobSaved c4store.next_job_id
                :: [c4file, c4fileB].map (fun f =>
                    Event.assocSaved c4store.next_job_id f.id) }
      ∧ (([c4file, c4fileB].map (fun f =>
          ({ processor_job := c4store.next_job_id, original_file := f.id } :
            PJOFAssociation))).map (fun a => a.original_file)).Nodup :=
  ⟨rfl, by decide, by decide,
    C4_amended_job_and_assocs salmonCtx c4store [c4file, c4fileB] c4file [c4fileB]
      rfl (by decide) (by decide)⟩

/-- C1 counterexample: at store `cx1` two samples are stale (their
most-recent quantification version 0.9.0 differs from the latest 1.0.0),
but zero new ProcessorJobs are created: one stale sample has no original
files and the other's only file is not raw-capable, so the spec-modelled
pipeline selector returns NONE — contradicting "exactly one new
ProcessorJob for each stale sample". -/
theorem C1_counterexample :
    2 ≤ (salmon_versions cx1 fix_e124).length
    ∧ staleSamples cx1 fix_e124 (latestVersionOf cx1 fix_e124)
        = [{ id := 1, original_file_ids := [] }, fix_s4]
    ∧ (update_salmon_versions specCtx cx1 fix_e124).jobs = [] := by
  refine ⟨by decide, by decide, by decide⟩

/-- C1 (amended): for an experiment with at least two entries in the
version list, the detector creates exactly one new ProcessorJob for each
stale sample whose OriginalFiles are non-empty and select a pipeline other
than NONE — per sample, so stale samples that cannot be served (no files,
or pipeline NONE) may be freely interleaved and receive no job — each job
covering exactly its sample's own original-file ids and carrying that
sample's pipeline, in the stale samples' order; and a sample whose
most-recent version equals the latest is never in the stale set, so it
receives no job.  Assumes the store's file ids are unique (primary keys)
and that the selector reads only a file's immutable attributes (id,
filename, raw flag, sample links) — as the real selector does — since the
NONE branch mutates the downloaded state of files mid-loop. -/
theorem C1_amended_staleness_jobs (ctx : Ctx) (store : Store) (exp : Experiment)
    (hV : 2 ≤ (salmon_versions store exp).length)
    (hassoc : ∀ a ∈ store.assocs, a.processor_job < store.next_job_id)
    (hjobs : ∀ j ∈ store.jobs, j.id < store.next_job_id)
    (hnodup : (store.files.map (fun x => x.id)).Nodup)
    (hsel : ∀ so f g, fileCore f = fileCore g →
      ctx.determine_processor_pipeline so f = ctx.determine_processor_pipeline so g) :
    (∀ s ∈ samplesOf store exp,
        annotated_salmon_version store s = some (latestVersionOf store exp) →
          s ∉ staleSamples store exp (latestVersionOf store exp))
    ∧ ∃ newJobs,
        (update_salmon_versions ctx store exp).jobs = store.jobs ++ newJobs
        ∧ newJobs.length
            = ((staleSamples store exp (latestVersionOf store exp)).filter
                (fun s => isProcessable ctx store s)).length
        ∧ List.Forall₂ (fun s j =>
            jobFileIds (update_salmon_versions ctx store exp) j = fileIdsOf store s
            ∧ j.pipeline_applied = (pipelineOf ctx store s).value)
          ((staleSamples store exp (latestVersionOf store exp)).filter
            (fun s => isProcessable ctx store s)) newJobs := by
  have hupd : update_salmon_versions ctx store exp
      = (staleSamples store exp (latestVersionOf store exp)).foldl (detectorStep ctx)
          store := by
    simp only [update_salmon_versions, latestVersionOf]
    rw [if_neg (by omega)]
  constructor
  · intro s hs hlat hmem
    rcases List.mem_filter.mp hmem with ⟨-, hstale⟩
    simp [isStale, hlat] at hstale
  · rw [hupd]
    exact foldl_step_mixed ctx store hsel hnodup _ store rfl rfl hassoc hjobs

/-- C1 witness: at the mixed store `wmix`, samples 1 and 4 are both stale,
but only sample 1 is processable (sample 4's only file is non-raw, so its
pipeline is NONE); the detector creates exactly one job, covering exactly
sample 1's file, and sample 2 — at the latest version — is not stale. -/
theorem C1_amended_witness :
    (2 ≤ (salmon_versions wmix fix_e124).length)
    ∧ (∀ a ∈ wmix.assocs, a.processor_job < wmix.next_job_id)
    ∧ (∀ j ∈ wmix.jobs, j.id < wmix.next_job_id)
    ∧ ((wmix.files.map (fun x => x.id)).Nodup)
    ∧ (∀ so f g, fileCore f = fileCore g →
        specCtx.determine_processor_pipeline so f
          = specCtx.determine_processor_pipeline so g)
    ∧ ((∀ s ∈ samplesOf wmix fix_e124,
          annotated_salmon_version wmix s = some (latestVersionOf wmix fix_e124) →
            s ∉ staleSamples wmix fix_e124 (latestVersionOf wmix fix_e124))
      ∧ ∃ newJobs,
          (update_salmon_versions specCtx wmix fix_e124).jobs = wmix.jobs ++ newJobs
          ∧ newJobs.length
              = ((staleSamples wmix fix_e124 (latestVersionOf wmix fix_e124)).filter
                  (fun s => isProcessable specCtx wmix s)).length
          ∧ List.Forall₂ (fun s j =>
              jobFileIds (update_salmon_versions specCtx wmix fix_e124) j
                = fileIdsOf wmix s
              ∧ j.pipeline_applied = (pipelineOf specCtx wmix s).value)
            ((staleSamples wmix fix_e124 (latestVersionOf wmix fix_e124)).filter
              (fun s => isProcessable specCtx wmix s)) newJobs) :=
  ⟨by decide, by decide, by decide, by decide,
    fun so f g h => spec_selector_core so f g h,
    C1_amended_staleness_jobs specCtx wmix fix_e124 (by decide) (by decide) (by decide)
      (by decide) (fun so f g h => spec_selector_core so f g h)⟩

/-- C10: a sample of the experiment without any quantification result (its
annotated most-recent version is NULL) is excluded from the stale set by
the `exclude(salmon_version=latest)` query, and every job present after the
detector runs either predates it or covers the files of some other, stale
sample. -/
theorem C10_null_version_excluded (ctx : Ctx) (store : Store) (exp : Experiment)
    (s : Sample)
    (hV : 2 ≤ (salmon_versions store exp).length)
    (hassoc : ∀ a ∈ store.assocs, a.processor_job < store.next_job_id)
    (hs : s ∈ samplesOf store exp)
    (hnull : annotated_salmon_version store s = none) :
    s ∉ staleSamples store exp (latestVersionOf store exp)
    ∧ ∀ j ∈ (update_salmon_versions ctx store exp).jobs,
        j ∈ store.jobs
          ∨ ∃ q ∈ staleSamples store exp (latestVersionOf store exp),
              q ≠ s ∧ jobFileIds (update_salmon_versions ctx store exp) j
                = fileIdsOf store q := by
  have hnot : s ∉ staleSamples store exp (latestVersionOf store exp) := by
    intro hmem
    rcases List.mem_filter.mp hmem with ⟨-, hstale⟩
    simp [isStale, hnull] at hstale
  have hupd : update_salmon_versions ctx store exp
      = (staleSamples store exp (latestVersionOf store exp)).foldl (detectorStep ctx)
          store := by
    simp only [update_salmon_versions, latestVersionOf]
    rw [if_neg (by omega)]
  refine ⟨hnot, ?_⟩
  rw [hupd]
  intro j hj
  rcases foldl_step_jobs_from ctx store _ store rfl rfl hassoc j hj with
    h | ⟨q, hq, hfid⟩
  · exact Or.inl h
  · exact Or.inr ⟨q, hq, fun hqs => hnot (hqs ▸ hq), hfid⟩

/-- C10 witness: at store `w10`, sample 3 has no quantification result; it
is excluded from the stale set and every created job covers another, stale
sample's files. -/
theorem C10_witness :
    (2 ≤ (salmon_versions w10 fix_e123).length)
    ∧ (∀ a ∈ w10.assocs, a.processor_job < w10.next_job_id)
    ∧ fix_s3 ∈ samplesOf w10 fix_e123
    ∧ annotated_salmon_version w10 fix_s3 = none
    ∧ (fix_s3 ∉ staleSamples w10 fix_e123 (latestVersionOf w10 fix_e123)
      ∧ ∀ j ∈ (update_salmon_versions specCtx w10 fix_e123).jobs,
          j ∈ w10.jobs
            ∨ ∃ q ∈ staleSamples w10 fix_e123 (latestVersionOf w10 fix_e123),
                q ≠ fix_s3 ∧ jobFileIds (update_salmon_versions specCtx w10 fix_e123) j
                  = fileIdsOf w10 q) :=
  ⟨by decide, by decide, by decide, by decide,
    C10_null_version_excluded specCtx w10 fix_e123 fix_s3 (by decide) (by decide)
      (by decide) (by decide)⟩

/-- C3 (code bug evidence): the retry queryset filters on the literal
string "SRA" and never on the `--source-database` argument, and it carries
no zero-ComputedFiles restriction: invoked with "GEO", the scan is exactly
the SRA sample that already has a computed file, while the GEO sample with
zero computed files is never scanned. -/
theorem C3_scan_ignores_argument :
    sra_samples rtStore "GEO" = [rtSra]
    ∧ rtGeo ∉ sra_samples rtStore "GEO"
    ∧ rtGeo.source_database = "GEO"
    ∧ rtGeo.computed_file_ids = []
    ∧ rtSra.source_database = "SRA"
    ∧ rtSra.computed_file_ids = [7] := by
  refine ⟨by decide, by decide, rfl, rfl, rfl, rfl⟩

/-- C7 (code bug evidence): with a single page containing one SRA sample
that lacks computed files, the `while page.has_next()` loop exits at once
— the page object is never advanced, `has_next` is false for a single
page — so the run terminates having created zero downloader jobs, though
the page was never processed. -/
theorem C7_last_page_never_processed :
    (sra_samples rtStore7 "SRA").length = 1
    ∧ rtSra2.computed_file_ids = []
    ∧ retry_handle 1000 rtStore7 (some "SRA") = some (Except.ok []) := by
  refine ⟨by decide, rfl, by decide⟩

end RF
